import Mathlib

set_option exponentiation.threshold 512

/-! Constant-product pool of `main.go`.

Shallow embedding of `Account`, `Pool`, `NewPool`, `Deposit`, `Buy`, `Price`
and `Sell` from `src/main.go`, together with the parts of the cosmos-sdk
`types` package (`Int`, `Dec`, `Coin`) those functions call.

Modelling conventions.

* `cosmtypes.Int` wraps an arbitrary-precision `big.Int`; it is a Lean `Int`.
  The checked operations (`Add`, `Sub`, `MulRaw`, `NewIntFromBigInt`) stop
  with "Int overflow" when the result needs more than `maxBitLen` bits.
* `cosmtypes.Dec` is a `big.Int` holding the value scaled by `10^18`.
  `Quo` and `Mul` round the 18th decimal place half-to-even
  (`chopPrecisionAndRound`) and stop when the result needs more than
  `maxDecBitLen` bits; `TruncateInt` drops the fractional part. The bound
  `maxDecBitLen` depends on the library version, which the repository does
  not pin: it is an argument of every operation that divides or multiplies
  decimals, and the general theorems hold for every value of it.
* A Go panic does not undo assignments already made.  Every operation
  returns the state reached together with the panic, if any.
* `Account.DenomToFund` is a Go map from denomination to `*Coin`; it is a
  function to `Option Coin`, `none` standing for a missing (nil) entry.  Each
  key owns its own coin.
-/

namespace AMM

/-! ## cosmos-sdk numeric types -/

/-- Reasons for which the modelled code stops. -/
inductive Panic where
  /-- `panic(fmt.Errorf("invalid denom to bid for this pool: %s", denom))` -/
  | invalidDenom (denom : String)
  /-- `panic(fmt.Errorf("insufficent fund: ..."))` -/
  | insufficientFund
  /-- dereference of a nil `*Coin` read from the account map -/
  | nilPointer
  /-- cosmos-sdk "Int overflow": a result does not fit the bit bound -/
  | intOverflow
  /-- `big.Int` division by zero inside `Dec.Quo` -/
  | divisionByZero
  /-- `Coin.Add` on coins of different denominations -/
  | denomMismatch
  deriving DecidableEq, Repr

/-- Largest bit length of a `cosmtypes.Int`. -/
def maxBitLen : Nat := 256

/-- Largest bit length of the scaled integer inside a `cosmtypes.Dec` in
cosmos-sdk v0.45. The bound is a constant of the library version and the
repository pins none, so `Dec.Quo`, `Dec.Mul` and the methods of `Pool` take
the bound as their first argument `maxDecBitLen`; this value only serves to
run them on concrete inputs. -/
def maxDecBitLenV045 : Nat := 315

/-- The test `x.BitLen() > n` of `big.Int`: the magnitude needs more than `n`
bits, that is, it reaches `2^n` (see `bitLen_gt_iff`). -/
def bitLenExceeds (x : Int) (n : Nat) : Bool := decide (2 ^ n ≤ x.natAbs)

/-- Checked addition `Int.Add`. -/
def IntAdd (a b : Int) : Except Panic Int :=
  if bitLenExceeds (a + b) maxBitLen then .error .intOverflow else .ok (a + b)

/-- Checked subtraction `Int.Sub`. -/
def IntSub (a b : Int) : Except Panic Int :=
  if bitLenExceeds (a - b) maxBitLen then .error .intOverflow else .ok (a - b)

/-- Bit length of a natural number, by halving at most `fuel` times. -/
def bitLenAux : Nat → Nat → Nat
  | 0, _ => 0
  | fuel + 1, n => if n = 0 then 0 else bitLenAux fuel (n / 2) + 1

/-- `big.Int.BitLen`: the number of bits of the magnitude (0 for 0). -/
def bitLen (x : Int) : Nat := bitLenAux x.natAbs x.natAbs

/-- Checked multiplication by a machine integer, `Int.MulRaw`, which is
`Int.Mul`: a first test on the bit lengths of the factors, a second on the
product. -/
def IntMulRaw (a b : Int) : Except Panic Int :=
  if maxBitLen < bitLen a + bitLen b - 1 then .error .intOverflow
  else if bitLenExceeds (a * b) maxBitLen then .error .intOverflow
  else .ok (a * b)

/-- Fixed-point decimal: `i` is the value multiplied by `10^18`. -/
structure Dec where
  i : Int
  deriving DecidableEq, Repr

/-- The scale `10^18` of a `Dec`. -/
def precisionReuse : Int := 1000000000000000000

/-- Half of the scale, `5 * 10^17`. -/
def fivePrecision : Int := 500000000000000000

/-- Body of `chopPrecisionAndRound` for a non-negative argument: divide by
`10^18`, rounding half to even. -/
def chopPrecisionAndRoundAbs (d : Int) : Int :=
  let quo := d.tdiv precisionReuse
  let rem := d.tmod precisionReuse
  if rem = 0 then quo
  else if rem < fivePrecision then quo
  else if fivePrecision < rem then quo + 1
  else if quo % 2 = 0 then quo
  else quo + 1

/-- Remove 18 digits of precision with banker's rounding; a negative
argument is negated, chopped and negated back. -/
def chopPrecisionAndRound (d : Int) : Int :=
  if d < 0 then -(chopPrecisionAndRoundAbs (-d)) else chopPrecisionAndRoundAbs d

/-- `NewDecFromInt`: the integer as a decimal (no bound check). -/
def NewDecFromInt (x : Int) : Dec := ⟨x * precisionReuse⟩

/-- `Dec.Quo`: rounded quotient. -/
def Dec.Quo (maxDecBitLen : Nat) (d d2 : Dec) : Except Panic Dec :=
  if d2.i = 0 then .error .divisionByZero
  else
    let chopped := chopPrecisionAndRound ((d.i * precisionReuse * precisionReuse).tdiv d2.i)
    if bitLenExceeds chopped maxDecBitLen then .error .intOverflow else .ok ⟨chopped⟩

/-- `Dec.Mul`: rounded product. -/
def Dec.Mul (maxDecBitLen : Nat) (d d2 : Dec) : Except Panic Dec :=
  let chopped := chopPrecisionAndRound (d.i * d2.i)
  if bitLenExceeds chopped maxDecBitLen then .error .intOverflow else .ok ⟨chopped⟩

/-- `Dec.TruncateInt`: integer part, through `NewIntFromBigInt`. -/
def Dec.TruncateInt (d : Dec) : Except Panic Int :=
  let t := d.i.tdiv precisionReuse
  if bitLenExceeds t maxBitLen then .error .intOverflow else .ok t

/-- A `cosmtypes.Coin`. -/
structure Coin where
  Denom : String
  Amount : Int
  deriving DecidableEq, Repr

/-- `Coin.Add`: stops on different denominations, else adds the amounts. -/
def Coin.Add (coin coinB : Coin) : Except Panic Coin :=
  if coin.Denom ≠ coinB.Denom then .error .denomMismatch
  else
    match IntAdd coin.Amount coinB.Amount with
    | .error e => .error e
    | .ok s => .ok ⟨coin.Denom, s⟩

/-! ## main.go -/

/-- The struct `Account`. -/
structure Account where
  Address : String
  DenomToFund : String → Option Coin

/-- The constructor `NewAccount`. -/
def NewAccount (addr : String) (denomFunds : String → Option Coin) : Account :=
  { Address := addr, DenomToFund := denomFunds }

/-- The assignment `account.DenomToFund[denom].Amount = amount` on a non-nil entry. -/
def Account.setAmount (a : Account) (denom : String) (amount : Int) : Account :=
  { a with DenomToFund := fun d =>
      if d = denom then (a.DenomToFund d).map (fun c => { c with Amount := amount })
      else a.DenomToFund d }

/-- The struct `Pool`. -/
structure Pool where
  BaseDecimal : Int
  BaseFund : Coin
  QuoteDecimal : Int
  QuoteFund : Coin
  Constant : Int
  deriving DecidableEq, Repr

/-- The loop `for i := 0; i < n; i++ { x = x.MulRaw(10) }` of `NewPool`. -/
def scaleLoop : Nat → Int → Except Panic Int
  | 0, x => .ok x
  | n + 1, x =>
    match IntMulRaw x 10 with
    | .error e => .error e
    | .ok y => scaleLoop n y

/-- The constructor `NewPool`; the loops do not run for a negative count. -/
def NewPool (baseFund quoteFund : Coin) (baseDecimal quoteDecimal : Int) (k : Int) :
    Except Panic Pool :=
  match scaleLoop baseDecimal.toNat 1 with
  | .error e => .error e
  | .ok bd =>
    match scaleLoop quoteDecimal.toNat 1 with
    | .error e => .error e
    | .ok qd =>
      .ok { BaseFund := baseFund, BaseDecimal := bd, QuoteFund := quoteFund,
            QuoteDecimal := qd, Constant := k }

/-- State after a call of `Deposit`: the panic raised, if any, the pool as
the call left it, and the returned refund (empty when the call stopped). -/
structure DepositResult where
  panic : Option Panic
  pool : Pool
  refund : List Coin

/-- The method `Pool.Deposit`. -/
def Deposit (maxDecBitLen : Nat) (p : Pool) (baseFunds quoteFund : Coin) : DepositResult :=
  match (NewDecFromInt p.BaseFund.Amount).Quo maxDecBitLen (NewDecFromInt p.QuoteFund.Amount) with
  | .error e => ⟨some e, p, []⟩
  | .ok currentRatio =>
  match (NewDecFromInt baseFunds.Amount).Quo maxDecBitLen currentRatio with
  | .error e => ⟨some e, p, []⟩
  | .ok quotient =>
  match quotient.TruncateInt with
  | .error e => ⟨some e, p, []⟩
  | .ok expectedQuote =>
  if expectedQuote ≤ quoteFund.Amount then
    match IntSub quoteFund.Amount expectedQuote with
    | .error e => ⟨some e, p, []⟩
    | .ok refundQuote =>
    match p.BaseFund.Add baseFunds with
    | .error e => ⟨some e, p, []⟩
    | .ok newBase =>
    let p1 := { p with BaseFund := newBase }
    match IntAdd p1.QuoteFund.Amount expectedQuote with
    | .error e => ⟨some e, p1, []⟩
    | .ok newQuoteAmount =>
    let p2 := { p1 with QuoteFund := { p1.QuoteFund with Amount := newQuoteAmount } }
    ⟨none, p2, [{ Amount := refundQuote, Denom := p2.QuoteFund.Denom }]⟩
  else
    match currentRatio.Mul maxDecBitLen (NewDecFromInt quoteFund.Amount) with
    | .error e => ⟨some e, p, []⟩
    | .ok product =>
    match product.TruncateInt with
    | .error e => ⟨some e, p, []⟩
    | .ok expectedBase =>
    match IntSub baseFunds.Amount expectedBase with
    | .error e => ⟨some e, p, []⟩
    | .ok refundBase =>
    match p.QuoteFund.Add quoteFund with
    | .error e => ⟨some e, p, []⟩
    | .ok newQuote =>
    let p1 := { p with QuoteFund := newQuote }
    match IntAdd p1.BaseFund.Amount baseFunds.Amount with
    | .error e => ⟨some e, p1, []⟩
    | .ok newBaseAmount =>
    let p2 := { p1 with BaseFund := { p1.BaseFund with Amount := newBaseAmount } }
    ⟨none, p2, [{ Amount := refundBase, Denom := p2.BaseFund.Denom }]⟩

/-- State after a call of `Buy` or `Sell`: the panic raised, if any, and the
pool and the account as the call left them. -/
structure TradeResult where
  panic : Option Panic
  pool : Pool
  account : Account

/-- The method `Pool.Buy`. -/
def Buy (maxDecBitLen : Nat) (p : Pool) (bidFund : Coin) (account : Account) :
    TradeResult :=
  if bidFund.Denom ≠ p.QuoteFund.Denom then ⟨some (.invalidDenom bidFund.Denom), p, account⟩
  else
  match account.DenomToFund bidFund.Denom with
  | none => ⟨some .nilPointer, p, account⟩
  | some held =>
  if held.Amount < bidFund.Amount then ⟨some .insufficientFund, p, account⟩
  else
  match p.QuoteFund.Add bidFund with
  | .error e => ⟨some e, p, account⟩
  | .ok tmpQuote =>
  match (NewDecFromInt p.Constant).Quo maxDecBitLen (NewDecFromInt tmpQuote.Amount) with
  | .error e => ⟨some e, p, account⟩
  | .ok quotient =>
  match quotient.TruncateInt with
  | .error e => ⟨some e, p, account⟩
  | .ok expectedBase =>
  match IntSub p.BaseFund.Amount expectedBase with
  | .error e => ⟨some e, p, account⟩
  | .ok sentBase =>
  match account.DenomToFund p.BaseFund.Denom with
  | none => ⟨some .nilPointer, p, account⟩
  | some baseHeld =>
  match IntAdd baseHeld.Amount sentBase with
  | .error e => ⟨some e, p, account⟩
  | .ok credited =>
  let account1 := account.setAmount p.BaseFund.Denom credited
  match account1.DenomToFund p.QuoteFund.Denom with
  | none => ⟨some .nilPointer, p, account1⟩
  | some quoteHeld =>
  match IntSub quoteHeld.Amount bidFund.Amount with
  | .error e => ⟨some e, p, account1⟩
  | .ok debited =>
  let account2 := account1.setAmount p.QuoteFund.Denom debited
  ⟨none, { p with BaseFund := { p.BaseFund with Amount := expectedBase }, QuoteFund := tmpQuote },
    account2⟩

/-- State after a call of `Price`: the decimal returned or the panic raised,
and the pool as the call left it. -/
structure PriceResult where
  value : Except Panic Dec
  pool : Pool

/-- The method `Pool.Price`; its body assigns nothing to the pool. -/
def Price (maxDecBitLen : Nat) (p : Pool) : PriceResult :=
  match (NewDecFromInt p.QuoteFund.Amount).Mul maxDecBitLen (NewDecFromInt p.BaseDecimal) with
  | .error e => ⟨.error e, p⟩
  | .ok scaled =>
  match scaled.Quo maxDecBitLen (NewDecFromInt p.QuoteDecimal) with
  | .error e => ⟨.error e, p⟩
  | .ok normalized => ⟨normalized.Quo maxDecBitLen (NewDecFromInt p.BaseFund.Amount), p⟩

/-- The method `Pool.Sell`. -/
def Sell (maxDecBitLen : Nat) (p : Pool) (askFund : Coin) (account : Account) :
    TradeResult :=
  if askFund.Denom ≠ p.QuoteFund.Denom then ⟨some (.invalidDenom askFund.Denom), p, account⟩
  else
  match account.DenomToFund askFund.Denom with
  | none => ⟨some .nilPointer, p, account⟩
  | some held =>
  if held.Amount < askFund.Amount then ⟨some .insufficientFund, p, account⟩
  else
  match p.QuoteFund.Add askFund with
  | .error e => ⟨some e, p, account⟩
  | .ok tmpBase =>
  match (NewDecFromInt p.Constant).Quo maxDecBitLen (NewDecFromInt tmpBase.Amount) with
  | .error e => ⟨some e, p, account⟩
  | .ok quotient =>
  match quotient.TruncateInt with
  | .error e => ⟨some e, p, account⟩
  | .ok expectedQuote =>
  match IntSub p.QuoteFund.Amount expectedQuote with
  | .error e => ⟨some e, p, account⟩
  | .ok sentQuote =>
  match account.DenomToFund p.QuoteFund.Denom with
  | none => ⟨some .nilPointer, p, account⟩
  | some quoteHeld =>
  match IntAdd quoteHeld.Amount sentQuote with
  | .error e => ⟨some e, p, account⟩
  | .ok credited =>
  let account1 := account.setAmount p.QuoteFund.Denom credited
  match account1.DenomToFund p.BaseFund.Denom with
  | none => ⟨some .nilPointer, p, account1⟩
  | some baseHeld =>
  match IntSub baseHeld.Amount askFund.Amount with
  | .error e => ⟨some e, p, account1⟩
  | .ok debited =>
  let account2 := account1.setAmount p.BaseFund.Denom debited
  ⟨none, { p with BaseFund := tmpBase, QuoteFund := { p.QuoteFund with Amount := expectedQuote } },
    account2⟩

/-! ## Derived quantities -/

/-- The integer that `Quo` followed by `TruncateInt` yields from the scaled
integers `N` and `D` of two decimals (when neither step stops). -/
def quoTrunc (N D : Int) : Int :=
  (chopPrecisionAndRound ((N * precisionReuse * precisionReuse).tdiv D)).tdiv precisionReuse

/-- Base reserve that `Buy` computes for a bid: `Quo` then `TruncateInt` of
`Constant` by the raised quote reserve. -/
def buyBase (p : Pool) (bid : Coin) : Int :=
  quoTrunc (p.Constant * precisionReuse) ((p.QuoteFund.Amount + bid.Amount) * precisionReuse)

/-- Quote reserve that `Sell` computes for an ask: `Quo` then `TruncateInt` of
`Constant` by the sum of the quote reserve and the ask. -/
def sellQuote (p : Pool) (ask : Coin) : Int :=
  quoTrunc (p.Constant * precisionReuse) ((p.QuoteFund.Amount + ask.Amount) * precisionReuse)

/-- Scaled integer of `currentRatio` in `Deposit`: base reserve over quote reserve. -/
def currentRatio (p : Pool) : Int :=
  chopPrecisionAndRound
    ((p.BaseFund.Amount * precisionReuse * precisionReuse * precisionReuse).tdiv
      (p.QuoteFund.Amount * precisionReuse))

/-- The amount `expectedQuote` of `Deposit`. -/
def expectedQuote (p : Pool) (baseFunds : Coin) : Int :=
  quoTrunc (baseFunds.Amount * precisionReuse) (currentRatio p)

/-- The amount `expectedBase` of `Deposit`. -/
def expectedBase (p : Pool) (quoteFund : Coin) : Int :=
  (chopPrecisionAndRound (currentRatio p * (quoteFund.Amount * precisionReuse))).tdiv
    precisionReuse

/-! ## Concrete inputs -/

/-- The account `accountA` built in `main`. -/
def accountMain : Account :=
  NewAccount "0x1" (fun d =>
    if d = "inj" then some ⟨"inj", 10000000000000000000⟩
    else if d = "usdt" then some ⟨"usdt", 1000000000⟩
    else none)

/-- The pool built in `main`: `NewPool` with 18 and 6 decimals. -/
def poolMain : Pool :=
  { BaseDecimal := 1000000000000000000,
    BaseFund := ⟨"inj", 100000000000000000000⟩,
    QuoteDecimal := 1000000,
    QuoteFund := ⟨"usdt", 800000000⟩,
    Constant := 80000000000000000000000000000 }

/-- The bid of each round of the loop in `main`. -/
def bidMain : Coin := ⟨"usdt", 1000000⟩

/-- A pool whose quote reserve reaches `2 * 10^18` with the bid `bidC1`. -/
def poolC1 : Pool :=
  { BaseDecimal := 1, BaseFund := ⟨"inj", 5⟩, QuoteDecimal := 1,
    QuoteFund := ⟨"usdt", 1000000000000000000⟩, Constant := 3999999999999999999 }

/-- An account holding `10^18` of the quote asset. -/
def accountC1 : Account :=
  NewAccount "0x1" (fun d =>
    if d = "inj" then some ⟨"inj", 0⟩
    else if d = "usdt" then some ⟨"usdt", 1000000000000000000⟩
    else none)

/-- A bid of `10^18` of the quote asset. -/
def bidC1 : Coin := ⟨"usdt", 1000000000000000000⟩

/-- A pool whose quote reserve reaches `4 * 10^18` with the bid `bidC1`. -/
def poolC2 : Pool :=
  { BaseDecimal := 1, BaseFund := ⟨"inj", 10⟩, QuoteDecimal := 1,
    QuoteFund := ⟨"usdt", 3000000000000000000⟩, Constant := 11999999999999999999 }

/-- A pool with equal reserves of 100. -/
def poolC3 : Pool :=
  { BaseDecimal := 1, BaseFund := ⟨"inj", 100⟩, QuoteDecimal := 1,
    QuoteFund := ⟨"usdt", 100⟩, Constant := 10000 }

/-- A pool whose ratio `3 / (2 * 10^18)` is not a multiple of `10^-18`. -/
def poolC4 : Pool :=
  { BaseDecimal := 1, BaseFund := ⟨"inj", 3⟩, QuoteDecimal := 1,
    QuoteFund := ⟨"usdt", 2000000000000000000⟩, Constant := 6000000000000000000 }

/-- A deposit of 100 inj (`10^20` base units). -/
def depositBase : Coin := ⟨"inj", 100000000000000000000⟩

/-- A deposit of 1000 usdt (`10^9` quote units). -/
def depositQuote : Coin := ⟨"usdt", 1000000000⟩

/-- An ask of 1 inj (`10^18` base units), in the pool's base denom. -/
def askMain : Coin := ⟨"inj", 1000000000000000000⟩

/-- The base amount that the first `Buy` of `main` credits to the account. -/
def creditedMain : Int := 124843945068664170

/-- A bid above the 1000 usdt that the account of `main` holds. -/
def bidTooLarge : Coin := ⟨"usdt", 2000000000⟩

/-- An account that holds the quote asset only. -/
def accountQuoteOnly : Account :=
  NewAccount "0x2" (fun d => if d = "usdt" then some ⟨"usdt", 50⟩ else none)

/-- A pool with reserves 1 and 1 and `k = 100`. -/
def poolC10 : Pool :=
  { BaseDecimal := 1, BaseFund := ⟨"inj", 1⟩, QuoteDecimal := 1,
    QuoteFund := ⟨"usdt", 1⟩, Constant := 100 }

/-- An account holding 100 base and 5 quote units. -/
def accountC10 : Account :=
  NewAccount "0x1" (fun d =>
    if d = "inj" then some ⟨"inj", 100⟩
    else if d = "usdt" then some ⟨"usdt", 5⟩
    else none)

/-- A bid of one quote unit. -/
def bidC10 : Coin := ⟨"usdt", 1⟩

/-- A pool with reserves 1 and 1 and `k = 1`. -/
def poolC11 : Pool :=
  { BaseDecimal := 1, BaseFund := ⟨"inj", 1⟩, QuoteDecimal := 1,
    QuoteFund := ⟨"usdt", 1⟩, Constant := 1 }

/-- An account holding 10 base and 5 quote units. -/
def accountC12 : Account :=
  NewAccount "0x1" (fun d =>
    if d = "inj" then some ⟨"inj", 10⟩
    else if d = "usdt" then some ⟨"usdt", 5⟩
    else none)

/-- An account holding 50 units of each asset. -/
def accountC13 : Account :=
  NewAccount "0x1" (fun d =>
    if d = "inj" then some ⟨"inj", 50⟩
    else if d = "usdt" then some ⟨"usdt", 50⟩
    else none)

/-- An ask of 10 units in the quote denom, the denom `Sell` accepts. -/
def askQuote : Coin := ⟨"usdt", 10⟩

/-- The spec's words for `expectedQuote`: `baseFunds.amount / currentRatio`
truncated, with `currentRatio = quoteReserve.amount / baseReserve.amount`,
in exact arithmetic: the integer part of `baseFunds * base / quote`. -/
def specExpectedQuote (p : Pool) (baseFunds : Coin) : Int :=
  Int.tdiv (baseFunds.Amount * p.BaseFund.Amount) p.QuoteFund.Amount

/-- A pool with reserves 100 and 200. -/
def poolC15 : Pool :=
  { BaseDecimal := 1, BaseFund := ⟨"inj", 100⟩, QuoteDecimal := 1,
    QuoteFund := ⟨"usdt", 200⟩, Constant := 20000 }

/-- A pool as `NewPool` builds it with 18 and 6 decimals, holding 1 base unit
and `10^76` quote units. -/
def poolC16 : Pool :=
  { BaseDecimal := 1000000000000000000, BaseFund := ⟨"inj", 1⟩,
    QuoteDecimal := 1000000,
    QuoteFund :=
      ⟨"usdt",
        10000000000000000000000000000000000000000000000000000000000000000000000000000⟩,
    Constant := 0 }

/-- A pool as `NewPool` builds it with 18 and 6 decimals, holding 5 base units
and `10^76` quote units. -/
def poolC17 : Pool :=
  { BaseDecimal := 1000000000000000000, BaseFund := ⟨"inj", 5⟩,
    QuoteDecimal := 1000000,
    QuoteFund :=
      ⟨"usdt",
        10000000000000000000000000000000000000000000000000000000000000000000000000000⟩,
    Constant := 0 }

/-- The pool of `main` after its first `Buy`. -/
def poolAfterBuy : Pool := (Buy maxDecBitLenV045 poolMain bidMain accountMain).pool

/-- The account of `main` after its first `Buy`. -/
def accountAfterBuy : Account := (Buy maxDecBitLenV045 poolMain bidMain accountMain).account

/-! ## Facts about the numeric layer -/

variable {maxDecBitLen : Nat}

theorem precisionReuse_eq : precisionReuse = 1000000000000000000 := rfl

theorem fivePrecision_eq : fivePrecision = 500000000000000000 := rfl

/-- Rounding a non-negative scaled integer moves it by at most half a unit. -/
theorem chopAbs_bounds (d : Int) (hd : 0 ≤ d) :
    0 ≤ chopPrecisionAndRoundAbs d ∧
    2 * (chopPrecisionAndRoundAbs d * precisionReuse) ≤ 2 * d + precisionReuse ∧
    2 * d ≤ 2 * (chopPrecisionAndRoundAbs d * precisionReuse) + precisionReuse := by
  have hP : (0 : Int) < precisionReuse := by decide
  have hq : d.tdiv precisionReuse = d / precisionReuse := Int.tdiv_eq_ediv hd (le_of_lt hP)
  have hr : d.tmod precisionReuse = d % precisionReuse := Int.tmod_eq_emod hd (le_of_lt hP)
  have h1 : precisionReuse * (d / precisionReuse) + d % precisionReuse = d :=
    Int.ediv_add_emod d precisionReuse
  have h2 : 0 ≤ d % precisionReuse := Int.emod_nonneg d (ne_of_gt hP)
  have h3 : d % precisionReuse < precisionReuse := Int.emod_lt_of_pos d hP
  have h4 : 0 ≤ d / precisionReuse := Int.ediv_nonneg hd (le_of_lt hP)
  unfold chopPrecisionAndRoundAbs
  simp only [hq, hr]
  rw [precisionReuse_eq] at *
  rw [fivePrecision_eq]
  split_ifs <;> constructor <;> (try constructor) <;> omega

/-- For a non-negative dividend and a positive divisor the truncated rounded
quotient `y` satisfies `N < (y + 1) * D` and exceeds `N / D` by at most
`D / (2 * 10^18)`. -/
theorem quoTrunc_bounds (N D : Int) (hN : 0 ≤ N) (hD : 0 < D) :
    0 ≤ quoTrunc N D ∧ N < (quoTrunc N D + 1) * D ∧
    2 * precisionReuse * (quoTrunc N D * D - N) ≤ D := by
  have hP : (0 : Int) < precisionReuse := by decide
  have hX : 0 ≤ N * precisionReuse * precisionReuse := by positivity
  set X := N * precisionReuse * precisionReuse with hXdef
  have ht : X.tdiv D = X / D := Int.tdiv_eq_ediv hX (le_of_lt hD)
  have ht0 : 0 ≤ X / D := Int.ediv_nonneg hX (le_of_lt hD)
  have ht1 : X / D * D ≤ X := Int.ediv_mul_le X (ne_of_gt hD)
  have ht2 : X < (X / D + 1) * D := Int.lt_ediv_add_one_mul_self X hD
  obtain ⟨hc0, hc1, hc2⟩ := chopAbs_bounds (X / D) ht0
  have hc : chopPrecisionAndRound (X / D) = chopPrecisionAndRoundAbs (X / D) := by
    unfold chopPrecisionAndRound
    rw [if_neg (not_lt.mpr ht0)]
  have hy : (chopPrecisionAndRoundAbs (X / D)).tdiv precisionReuse
      = chopPrecisionAndRoundAbs (X / D) / precisionReuse := Int.tdiv_eq_ediv hc0 (le_of_lt hP)
  have hy0 : 0 ≤ chopPrecisionAndRoundAbs (X / D) / precisionReuse :=
    Int.ediv_nonneg hc0 (le_of_lt hP)
  have hy1 : chopPrecisionAndRoundAbs (X / D) / precisionReuse * precisionReuse
      ≤ chopPrecisionAndRoundAbs (X / D) := Int.ediv_mul_le _ (ne_of_gt hP)
  have hy2 : chopPrecisionAndRoundAbs (X / D)
      < (chopPrecisionAndRoundAbs (X / D) / precisionReuse + 1) * precisionReuse :=
    Int.lt_ediv_add_one_mul_self _ hP
  have hq : quoTrunc N D = chopPrecisionAndRoundAbs (X / D) / precisionReuse := by
    unfold quoTrunc
    rw [← hXdef, ht, hc, hy]
  rw [hq]
  set t := X / D with htdef
  set c := chopPrecisionAndRoundAbs t with hcdef
  set y := c / precisionReuse with hydef
  refine ⟨hy0, ?_, ?_⟩
  · -- t + 1 ≤ (y+1) P^2
    have h1 : t + 1 ≤ (y + 1) * precisionReuse * precisionReuse := by
      have : c * precisionReuse + precisionReuse ≤ (y + 1) * precisionReuse * precisionReuse := by
        nlinarith
      rw [precisionReuse_eq] at *
      omega
    have h2 : (t + 1) * D ≤ (y + 1) * precisionReuse * precisionReuse * D :=
      mul_le_mul_of_nonneg_right h1 (le_of_lt hD)
    have h3 : N * precisionReuse * precisionReuse < (y + 1) * D * precisionReuse * precisionReuse := by
      calc N * precisionReuse * precisionReuse = X := rfl
        _ < (t + 1) * D := ht2
        _ ≤ (y + 1) * precisionReuse * precisionReuse * D := h2
        _ = (y + 1) * D * precisionReuse * precisionReuse := by ring
    have h4 : N * precisionReuse < (y + 1) * D * precisionReuse := lt_of_mul_lt_mul_right h3 (le_of_lt hP)
    exact lt_of_mul_lt_mul_right h4 (le_of_lt hP)
  · have h1 : 2 * (y * precisionReuse * precisionReuse) ≤ 2 * t + precisionReuse := by
      have : y * precisionReuse * precisionReuse ≤ c * precisionReuse :=
        mul_le_mul_of_nonneg_right hy1 (le_of_lt hP)
      linarith
    have h2 : 2 * (y * precisionReuse * precisionReuse) * D ≤ (2 * t + precisionReuse) * D :=
      mul_le_mul_of_nonneg_right h1 (le_of_lt hD)
    have h3 : (2 * precisionReuse * (y * D - N)) * precisionReuse ≤ D * precisionReuse := by
      have : X = N * precisionReuse * precisionReuse := rfl
      nlinarith
    exact le_of_mul_le_mul_right h3 hP

theorem IntAdd_ok {a b r : Int} (h : IntAdd a b = .ok r) : r = a + b := by
  unfold IntAdd at h
  split at h <;> simp at h
  exact h.symm

theorem IntSub_ok {a b r : Int} (h : IntSub a b = .ok r) : r = a - b := by
  unfold IntSub at h
  split at h <;> simp at h
  exact h.symm

theorem CoinAdd_ok {c d r : Coin} (h : c.Add d = .ok r) :
    c.Denom = d.Denom ∧ r = ⟨c.Denom, c.Amount + d.Amount⟩ := by
  unfold Coin.Add at h
  split at h
  · simp at h
  · rename_i hd
    split at h
    · simp at h
    · rename_i s hs
      simp at h
      have := IntAdd_ok hs
      subst this
      exact ⟨not_not.mp hd, h.symm⟩

theorem QuoTruncate_ok {x y : Int} {q : Dec} {r : Int}
    (h1 : (NewDecFromInt x).Quo maxDecBitLen (NewDecFromInt y) = .ok q) (h2 : q.TruncateInt = .ok r) :
    y ≠ 0 ∧ r = quoTrunc (x * precisionReuse) (y * precisionReuse) := by
  unfold Dec.Quo at h1
  split at h1
  · simp at h1
  · rename_i hy
    simp only at h1
    split at h1
    · simp at h1
    · simp only [Except.ok.injEq] at h1
      subst h1
      unfold Dec.TruncateInt at h2
      simp only at h2
      split at h2
      · simp at h2
      · simp only [Except.ok.injEq] at h2
        subst h2
        refine ⟨?_, rfl⟩
        intro hy0
        apply hy
        simp [NewDecFromInt, hy0]

/-- What a call of `Buy` that does not stop has done. -/
theorem Buy_ok (p : Pool) (bid : Coin) (a : Account) (h : (Buy maxDecBitLen p bid a).panic = none) :
    ∃ held baseHeld quoteHeld,
      bid.Denom = p.QuoteFund.Denom ∧
      a.DenomToFund p.QuoteFund.Denom = some held ∧ bid.Amount ≤ held.Amount ∧
      p.QuoteFund.Amount + bid.Amount ≠ 0 ∧
      a.DenomToFund p.BaseFund.Denom = some baseHeld ∧
      (a.setAmount p.BaseFund.Denom
        (baseHeld.Amount + (p.BaseFund.Amount - buyBase p bid))).DenomToFund p.QuoteFund.Denom
        = some quoteHeld ∧
      (Buy maxDecBitLen p bid a).pool =
        { p with
          BaseFund := { p.BaseFund with Amount := buyBase p bid },
          QuoteFund := ⟨p.QuoteFund.Denom, p.QuoteFund.Amount + bid.Amount⟩ } ∧
      (Buy maxDecBitLen p bid a).account =
        ((a.setAmount p.BaseFund.Denom
            (baseHeld.Amount + (p.BaseFund.Amount - buyBase p bid))).setAmount
          p.QuoteFund.Denom (quoteHeld.Amount - bid.Amount)) := by
  unfold buyBase
  unfold Buy at h ⊢
  split at h
  · simp at h
  rename_i hden
  have hden := not_not.mp hden
  split at h
  · simp at h
  rename_i held hheld
  split at h
  · simp at h
  rename_i hle
  split at h
  · simp at h
  rename_i tmpQuote htmp
  split at h
  · simp at h
  rename_i quotient hquo
  split at h
  · simp at h
  rename_i expectedBase hexp
  split at h
  · simp at h
  rename_i sentBase hsent
  split at h
  · simp at h
  rename_i baseHeld hbase
  split at h
  · simp at h
  rename_i credited hcred
  simp only at h
  split at h
  · simp at h
  rename_i quoteHeld hqh
  split at h
  · simp at h
  rename_i debited hdeb
  obtain ⟨_, htq⟩ := CoinAdd_ok htmp
  subst htq
  obtain ⟨hne, hy⟩ := QuoTruncate_ok hquo hexp
  have hs := IntSub_ok hsent
  have hc := IntAdd_ok hcred
  have hd := IntSub_ok hdeb
  subst hy hs hc hd
  refine ⟨held, baseHeld, quoteHeld, hden, hden ▸ hheld, not_lt.mp hle, hne, hbase, hqh, ?_, ?_⟩
  · simp only [if_neg (not_not.mpr hden), hheld, hle, htmp, hquo, hexp, hsent, hbase, hcred, hqh, hdeb]
    simp
  · simp only [if_neg (not_not.mpr hden), hheld, hle, htmp, hquo, hexp, hsent, hbase, hcred, hqh, hdeb]
    simp


/-- Bounds of `quoTrunc` when both decimals come from integers. -/
theorem quoTrunc_scaled (k q : Int) (hk : 0 ≤ k) (hq : 0 < q) :
    0 ≤ quoTrunc (k * precisionReuse) (q * precisionReuse) ∧
    k < (quoTrunc (k * precisionReuse) (q * precisionReuse) + 1) * q ∧
    2 * precisionReuse * (quoTrunc (k * precisionReuse) (q * precisionReuse) * q - k) ≤ q := by
  have hP : (0 : Int) < precisionReuse := by decide
  obtain ⟨h0, h1, h2⟩ := quoTrunc_bounds (k * precisionReuse) (q * precisionReuse)
    (mul_nonneg hk (le_of_lt hP)) (mul_pos hq hP)
  set y := quoTrunc (k * precisionReuse) (q * precisionReuse)
  refine ⟨h0, ?_, ?_⟩
  · have : k * precisionReuse < (y + 1) * q * precisionReuse := by linarith
    exact lt_of_mul_lt_mul_right this (le_of_lt hP)
  · have : (2 * precisionReuse * (y * q - k)) * precisionReuse ≤ q * precisionReuse := by
      linarith
    exact le_of_mul_le_mul_right this hP

/-! ## C1: product of the reserves after `Buy` -/

/-- C1, counterexample: on a pool with positive reserves and `k > 0` a valid
`Buy` that raises the quote reserve to `2 * 10^18` leaves a base reserve of 2,
so the product of the reserves `4 * 10^18` exceeds `k = 4 * 10^18 - 1`. -/
theorem C1_buy_product_exceeds_constant :
    0 < poolC1.BaseFund.Amount ∧ 0 < poolC1.QuoteFund.Amount ∧ 0 < poolC1.Constant ∧
    bidC1.Denom = poolC1.QuoteFund.Denom ∧ 0 ≤ bidC1.Amount ∧
    accountC1.DenomToFund "usdt" = some ⟨"usdt", 1000000000000000000⟩ ∧
    bidC1.Amount ≤ 1000000000000000000 ∧
    (Buy maxDecBitLenV045 poolC1 bidC1 accountC1).panic = none ∧
    (Buy maxDecBitLenV045 poolC1 bidC1 accountC1).pool.BaseFund.Amount = 2 ∧
    (Buy maxDecBitLenV045 poolC1 bidC1 accountC1).pool.QuoteFund.Amount = 2000000000000000000 ∧
    ¬ ((Buy maxDecBitLenV045 poolC1 bidC1 accountC1).pool.BaseFund.Amount *
        (Buy maxDecBitLenV045 poolC1 bidC1 accountC1).pool.QuoteFund.Amount ≤ poolC1.Constant) := by
  decide

/-- C1, amended: after a `Buy` that does not stop, on a pool with positive
quote reserve and `k > 0` and with a non-negative bid, `k` exceeds the product
of the reserves by less than the quote reserve, the product exceeds `k` by at
most the quote reserve divided by `2 * 10^18`, and so the product is at most `k`
whenever the quote reserve after the call is below `2 * 10^18`. -/
theorem C1_buy_product_within_rounding (p : Pool) (bid : Coin) (a : Account)
    (hQ : 0 < p.QuoteFund.Amount) (hk : 0 < p.Constant) (hbid : 0 ≤ bid.Amount)
    (h : (Buy maxDecBitLen p bid a).panic = none) :
    p.Constant - (Buy maxDecBitLen p bid a).pool.BaseFund.Amount * (Buy maxDecBitLen p bid a).pool.QuoteFund.Amount
      < (Buy maxDecBitLen p bid a).pool.QuoteFund.Amount ∧
    2 * 10 ^ 18 *
      ((Buy maxDecBitLen p bid a).pool.BaseFund.Amount * (Buy maxDecBitLen p bid a).pool.QuoteFund.Amount - p.Constant)
      ≤ (Buy maxDecBitLen p bid a).pool.QuoteFund.Amount ∧
    ((Buy maxDecBitLen p bid a).pool.QuoteFund.Amount < 2 * 10 ^ 18 →
      (Buy maxDecBitLen p bid a).pool.BaseFund.Amount * (Buy maxDecBitLen p bid a).pool.QuoteFund.Amount ≤ p.Constant) := by
  obtain ⟨held, baseHeld, quoteHeld, -, -, -, -, -, -, hpool, -⟩ := Buy_ok p bid a h
  have hq : 0 < p.QuoteFund.Amount + bid.Amount := by omega
  obtain ⟨h0, h1, h2⟩ := quoTrunc_scaled p.Constant _ (le_of_lt hk) hq
  rw [hpool]
  simp only [buyBase]
  set y := quoTrunc (p.Constant * precisionReuse)
    ((p.QuoteFund.Amount + bid.Amount) * precisionReuse)
  set q := p.QuoteFund.Amount + bid.Amount
  rw [precisionReuse_eq] at h2
  have e : (2 * 10 ^ 18 : Int) = 2 * 1000000000000000000 := by norm_num
  rw [e]
  refine ⟨by linarith, h2, ?_⟩
  intro hlt
  by_contra hc
  have : 1 ≤ y * q - p.Constant := by omega
  nlinarith

/-- C1, witness: the first `Buy` of `main`. -/
theorem C1_buy_product_within_rounding_witness :
    0 < poolMain.QuoteFund.Amount ∧ 0 < poolMain.Constant ∧ 0 ≤ bidMain.Amount ∧
    (Buy maxDecBitLenV045 poolMain bidMain accountMain).panic = none ∧
    (poolMain.Constant - (Buy maxDecBitLenV045 poolMain bidMain accountMain).pool.BaseFund.Amount *
        (Buy maxDecBitLenV045 poolMain bidMain accountMain).pool.QuoteFund.Amount
      < (Buy maxDecBitLenV045 poolMain bidMain accountMain).pool.QuoteFund.Amount ∧
    2 * 10 ^ 18 *
      ((Buy maxDecBitLenV045 poolMain bidMain accountMain).pool.BaseFund.Amount *
        (Buy maxDecBitLenV045 poolMain bidMain accountMain).pool.QuoteFund.Amount - poolMain.Constant)
      ≤ (Buy maxDecBitLenV045 poolMain bidMain accountMain).pool.QuoteFund.Amount ∧
    ((Buy maxDecBitLenV045 poolMain bidMain accountMain).pool.QuoteFund.Amount < 2 * 10 ^ 18 →
      (Buy maxDecBitLenV045 poolMain bidMain accountMain).pool.BaseFund.Amount *
        (Buy maxDecBitLenV045 poolMain bidMain accountMain).pool.QuoteFund.Amount ≤ poolMain.Constant)) :=
  ⟨by decide, by decide, by decide, by decide,
    C1_buy_product_within_rounding poolMain bidMain accountMain
      (by decide) (by decide) (by decide) (by decide)⟩

/-- Rounding commutes with negation. -/
theorem chopPrecisionAndRound_neg (x : Int) :
    chopPrecisionAndRound (-x) = -chopPrecisionAndRound x := by
  unfold chopPrecisionAndRound
  rcases lt_trichotomy x 0 with hx | hx | hx
  · rw [if_neg (by omega), if_pos hx]; simp
  · subst hx; decide
  · rw [if_pos (by omega), if_neg (by omega)]; simp

theorem quoTrunc_neg_left (N D : Int) : quoTrunc (-N) D = -quoTrunc N D := by
  unfold quoTrunc
  rw [show -N * precisionReuse * precisionReuse = -(N * precisionReuse * precisionReuse) by ring,
    Int.neg_tdiv, chopPrecisionAndRound_neg, Int.neg_tdiv]

theorem quoTrunc_neg_right (N D : Int) : quoTrunc N (-D) = -quoTrunc N D := by
  unfold quoTrunc
  rw [Int.tdiv_neg, chopPrecisionAndRound_neg, Int.neg_tdiv]

/-- Distance between the rounded-then-truncated quotient and the truncated
exact quotient, non-negative dividend and positive divisor. -/
theorem quoTrunc_scaled_tdiv_pos (k q : Int) (hk : 0 ≤ k) (hq : 0 < q) :
    (q < 2 * precisionReuse →
      quoTrunc (k * precisionReuse) (q * precisionReuse) = k.tdiv q) ∧
    |quoTrunc (k * precisionReuse) (q * precisionReuse) - k.tdiv q| ≤ 1 := by
  have hP : (0 : Int) < precisionReuse := by decide
  obtain ⟨h0, h1, h2⟩ := quoTrunc_scaled k q hk hq
  rw [Int.tdiv_eq_ediv hk (le_of_lt hq)]
  set y := quoTrunc (k * precisionReuse) (q * precisionReuse)
  have hn1 : k / q * q ≤ k := Int.ediv_mul_le k (ne_of_gt hq)
  have hn2 : k < (k / q + 1) * q := Int.lt_ediv_add_one_mul_self k hq
  have hlo : k / q ≤ y := by
    by_contra hc
    have : y + 1 ≤ k / q := by omega
    have := mul_le_mul_of_nonneg_right this (le_of_lt hq)
    linarith
  have hhi : y ≤ k / q + 1 := by
    by_contra hc
    have : k / q + 2 ≤ y := by omega
    have := mul_le_mul_of_nonneg_right this (le_of_lt hq)
    have h3 : y * q - k ≤ 2 * precisionReuse * (y * q - k) := by
      rw [precisionReuse_eq]
      nlinarith
    nlinarith
  refine ⟨?_, ?_⟩
  · intro hlt
    by_contra hc
    have hy : y = k / q + 1 := by omega
    have : 1 ≤ y * q - k := by
      rw [hy]; linarith
    have h3 : 2 * precisionReuse ≤ 2 * precisionReuse * (y * q - k) := by
      rw [precisionReuse_eq]
      nlinarith
    linarith
  · rw [abs_le]
    constructor <;> omega

/-- The same for every dividend and every non-zero divisor. -/
theorem quoTrunc_scaled_tdiv (k q : Int) (hq : q ≠ 0) :
    (|q| < 2 * precisionReuse →
      quoTrunc (k * precisionReuse) (q * precisionReuse) = k.tdiv q) ∧
    |quoTrunc (k * precisionReuse) (q * precisionReuse) - k.tdiv q| ≤ 1 := by
  have key : ∀ k q : Int, 0 < q →
      (|q| < 2 * precisionReuse →
        quoTrunc (k * precisionReuse) (q * precisionReuse) = k.tdiv q) ∧
      |quoTrunc (k * precisionReuse) (q * precisionReuse) - k.tdiv q| ≤ 1 := by
    intro k q hq
    rw [abs_of_pos hq]
    rcases le_or_lt 0 k with hk | hk
    · exact quoTrunc_scaled_tdiv_pos k q hk hq
    · obtain ⟨h1, h2⟩ := quoTrunc_scaled_tdiv_pos (-k) q (by omega) hq
      rw [neg_mul, quoTrunc_neg_left, Int.neg_tdiv] at h1 h2
      refine ⟨fun hlt => neg_injective (h1 hlt), ?_⟩
      rw [← abs_neg]
      convert h2 using 2
      ring
  rcases lt_or_gt_of_ne hq with hneg | hpos
  · obtain ⟨h1, h2⟩ := key k (-q) (by omega)
    rw [neg_mul, quoTrunc_neg_right, Int.tdiv_neg, abs_neg] at h1
    rw [neg_mul, quoTrunc_neg_right, Int.tdiv_neg] at h2
    refine ⟨fun hlt => neg_injective (h1 hlt), ?_⟩
    rw [← abs_neg]
    convert h2 using 2
    ring
  · exact key k q hpos

theorem setAmount_same (a : Account) (d : String) (v : Int) (c : Coin)
    (h : a.DenomToFund d = some c) :
    (a.setAmount d v).DenomToFund d = some { c with Amount := v } := by
  simp [Account.setAmount, h]

theorem setAmount_other (a : Account) (d d' : String) (v : Int) (h : d' ≠ d) :
    (a.setAmount d v).DenomToFund d' = a.DenomToFund d' := by
  simp [Account.setAmount, h]

/-! ## C2: what `Buy` moves -/

/-- C2, counterexample: with `k = 12 * 10^18 - 1` and a quote reserve raised to
`4 * 10^18` the base reserve after `Buy` is 3, while the integer part of the
exact quotient `k / (old quote + bid)` is 2. -/
theorem C2_buy_base_not_truncated_quotient :
    poolC2.BaseFund.Denom ≠ poolC2.QuoteFund.Denom ∧
    (Buy maxDecBitLenV045 poolC2 bidC1 accountC1).panic = none ∧
    (Buy maxDecBitLenV045 poolC2 bidC1 accountC1).pool.BaseFund.Amount = 3 ∧
    Int.tdiv poolC2.Constant (poolC2.QuoteFund.Amount + bidC1.Amount) = 2 ∧
    (Buy maxDecBitLenV045 poolC2 bidC1 accountC1).pool.BaseFund.Amount ≠
      Int.tdiv poolC2.Constant (poolC2.QuoteFund.Amount + bidC1.Amount) := by
  decide

/-- C2, amended: a `Buy` that does not stop on a pool with distinct denoms
raises the quote reserve by exactly the bid; the new base reserve is the
integer part of `k / (old quote + bid)` rounded at the 18th decimal, which is
within 1 of the integer part of the exact quotient and equal to it when the
new quote reserve is below `2 * 10^18` in magnitude; the account's base
balance grows by exactly the decrease of the base reserve and its quote
balance falls by exactly the bid, so pool plus account hold the same total
of each denom as before. -/
theorem C2_buy_transfers (p : Pool) (bid : Coin) (a : Account)
    (hden : p.BaseFund.Denom ≠ p.QuoteFund.Denom) (h : (Buy maxDecBitLen p bid a).panic = none) :
    ∃ baseHeld quoteHeld : Coin,
      a.DenomToFund p.BaseFund.Denom = some baseHeld ∧
      a.DenomToFund p.QuoteFund.Denom = some quoteHeld ∧
      (Buy maxDecBitLen p bid a).pool.QuoteFund.Amount = p.QuoteFund.Amount + bid.Amount ∧
      |(Buy maxDecBitLen p bid a).pool.BaseFund.Amount
        - Int.tdiv p.Constant (p.QuoteFund.Amount + bid.Amount)| ≤ 1 ∧
      (|p.QuoteFund.Amount + bid.Amount| < 2 * 10 ^ 18 →
        (Buy maxDecBitLen p bid a).pool.BaseFund.Amount
          = Int.tdiv p.Constant (p.QuoteFund.Amount + bid.Amount)) ∧
      (Buy maxDecBitLen p bid a).account.DenomToFund p.BaseFund.Denom =
        some { baseHeld with Amount := baseHeld.Amount +
          (p.BaseFund.Amount - (Buy maxDecBitLen p bid a).pool.BaseFund.Amount) } ∧
      (Buy maxDecBitLen p bid a).account.DenomToFund p.QuoteFund.Denom =
        some { quoteHeld with Amount := quoteHeld.Amount - bid.Amount } ∧
      (Buy maxDecBitLen p bid a).pool.BaseFund.Amount + (baseHeld.Amount +
          (p.BaseFund.Amount - (Buy maxDecBitLen p bid a).pool.BaseFund.Amount))
        = p.BaseFund.Amount + baseHeld.Amount ∧
      (Buy maxDecBitLen p bid a).pool.QuoteFund.Amount + (quoteHeld.Amount - bid.Amount)
        = p.QuoteFund.Amount + quoteHeld.Amount := by
  obtain ⟨held, baseHeld, quoteHeld, -, hheld, -, hne, hbase, hqh, hpool, hacc⟩ := Buy_ok p bid a h
  rw [setAmount_other _ _ _ _ (Ne.symm hden), hheld] at hqh
  obtain rfl : held = quoteHeld := Option.some.inj hqh
  obtain ⟨hsmall, hnear⟩ := quoTrunc_scaled_tdiv p.Constant _ hne
  refine ⟨baseHeld, held, hbase, hheld, ?_, ?_, ?_, ?_, ?_, ?_, ?_⟩
  · rw [hpool]
  · rw [hpool]; exact hnear
  · intro hlt
    rw [hpool]
    apply hsmall
    rw [precisionReuse_eq]
    have e : (2 * 10 ^ 18 : Int) = 2 * 1000000000000000000 := by norm_num
    rw [e] at hlt
    exact hlt
  · rw [hacc, setAmount_other _ _ _ _ hden, setAmount_same _ _ _ _ hbase, hpool]
  · rw [hacc]
    rw [setAmount_same _ _ _ held]
    rw [setAmount_other _ _ _ _ (Ne.symm hden)]
    exact hheld
  · ring
  · rw [hpool]; simp only; ring

/-- C2, witness: the first `Buy` of `main`. -/
theorem C2_buy_transfers_witness :
    poolMain.BaseFund.Denom ≠ poolMain.QuoteFund.Denom ∧
    (Buy maxDecBitLenV045 poolMain bidMain accountMain).panic = none ∧
    (∃ baseHeld quoteHeld : Coin,
      accountMain.DenomToFund poolMain.BaseFund.Denom = some baseHeld ∧
      accountMain.DenomToFund poolMain.QuoteFund.Denom = some quoteHeld ∧
      (Buy maxDecBitLenV045 poolMain bidMain accountMain).pool.QuoteFund.Amount = poolMain.QuoteFund.Amount + bidMain.Amount ∧
      |(Buy maxDecBitLenV045 poolMain bidMain accountMain).pool.BaseFund.Amount
        - Int.tdiv poolMain.Constant (poolMain.QuoteFund.Amount + bidMain.Amount)| ≤ 1 ∧
      (|poolMain.QuoteFund.Amount + bidMain.Amount| < 2 * 10 ^ 18 →
        (Buy maxDecBitLenV045 poolMain bidMain accountMain).pool.BaseFund.Amount
          = Int.tdiv poolMain.Constant (poolMain.QuoteFund.Amount + bidMain.Amount)) ∧
      (Buy maxDecBitLenV045 poolMain bidMain accountMain).account.DenomToFund poolMain.BaseFund.Denom =
        some { baseHeld with Amount := baseHeld.Amount +
          (poolMain.BaseFund.Amount - (Buy maxDecBitLenV045 poolMain bidMain accountMain).pool.BaseFund.Amount) } ∧
      (Buy maxDecBitLenV045 poolMain bidMain accountMain).account.DenomToFund poolMain.QuoteFund.Denom =
        some { quoteHeld with Amount := quoteHeld.Amount - bidMain.Amount } ∧
      (Buy maxDecBitLenV045 poolMain bidMain accountMain).pool.BaseFund.Amount + (baseHeld.Amount +
          (poolMain.BaseFund.Amount - (Buy maxDecBitLenV045 poolMain bidMain accountMain).pool.BaseFund.Amount))
        = poolMain.BaseFund.Amount + baseHeld.Amount ∧
      (Buy maxDecBitLenV045 poolMain bidMain accountMain).pool.QuoteFund.Amount + (quoteHeld.Amount - bidMain.Amount)
        = poolMain.QuoteFund.Amount + quoteHeld.Amount) :=
  ⟨by decide, by decide,
    C2_buy_transfers poolMain bidMain accountMain (by decide) (by decide)⟩

/-! ## Facts about `Deposit` -/

theorem Quo_ok {d d2 q : Dec} (h : d.Quo maxDecBitLen d2 = .ok q) :
    d2.i ≠ 0 ∧ q.i = chopPrecisionAndRound ((d.i * precisionReuse * precisionReuse).tdiv d2.i) := by
  unfold Dec.Quo at h
  split at h
  · simp at h
  · rename_i hy
    simp only at h
    split at h
    · simp at h
    · simp only [Except.ok.injEq] at h
      subst h
      exact ⟨hy, rfl⟩

theorem Mul_ok {d d2 q : Dec} (h : d.Mul maxDecBitLen d2 = .ok q) :
    q.i = chopPrecisionAndRound (d.i * d2.i) := by
  unfold Dec.Mul at h
  simp only at h
  split at h
  · simp at h
  · simp only [Except.ok.injEq] at h
    subst h
    rfl

theorem TruncateInt_ok {q : Dec} {r : Int} (h : q.TruncateInt = .ok r) :
    r = q.i.tdiv precisionReuse := by
  unfold Dec.TruncateInt at h
  simp only at h
  split at h
  · simp at h
  · simp only [Except.ok.injEq] at h
    exact h.symm

/-- What a call of `Deposit` that does not stop has done, in either branch. -/
theorem Deposit_ok (p : Pool) (bf qf : Coin) (h : (Deposit maxDecBitLen p bf qf).panic = none) :
    p.QuoteFund.Amount ≠ 0 ∧ currentRatio p ≠ 0 ∧
    (expectedQuote p bf ≤ qf.Amount →
      p.BaseFund.Denom = bf.Denom ∧
      (Deposit maxDecBitLen p bf qf).pool =
        { p with
          BaseFund := ⟨p.BaseFund.Denom, p.BaseFund.Amount + bf.Amount⟩,
          QuoteFund := { p.QuoteFund with Amount := p.QuoteFund.Amount + expectedQuote p bf } } ∧
      (Deposit maxDecBitLen p bf qf).refund = [⟨p.QuoteFund.Denom, qf.Amount - expectedQuote p bf⟩]) ∧
    (¬ expectedQuote p bf ≤ qf.Amount →
      p.QuoteFund.Denom = qf.Denom ∧
      (Deposit maxDecBitLen p bf qf).pool =
        { p with
          QuoteFund := ⟨p.QuoteFund.Denom, p.QuoteFund.Amount + qf.Amount⟩,
          BaseFund := { p.BaseFund with Amount := p.BaseFund.Amount + bf.Amount } } ∧
      (Deposit maxDecBitLen p bf qf).refund = [⟨p.BaseFund.Denom, bf.Amount - expectedBase p qf⟩]) := by
  unfold Deposit at h ⊢
  split at h
  · simp at h
  rename_i ratio hratio
  split at h
  · simp at h
  rename_i quotient hquo
  split at h
  · simp at h
  rename_i eq heq
  obtain ⟨hQ, hr⟩ := Quo_ok hratio
  obtain ⟨hr0, hq⟩ := Quo_ok hquo
  have he := TruncateInt_ok heq
  have hQ' : p.QuoteFund.Amount ≠ 0 := by
    intro h0; apply hQ; simp [NewDecFromInt, h0]
  have hcr : ratio.i = currentRatio p := by
    rw [hr]; rfl
  have heq' : eq = expectedQuote p bf := by
    rw [he, hq, hcr]; rfl
  subst heq'
  simp only [hratio, hquo, heq]
  refine ⟨hQ', hcr ▸ hr0, ?_, ?_⟩
  · intro hle
    rw [if_pos hle] at h ⊢
    split at h
    · simp at h
    rename_i refundQuote hrq
    split at h
    · simp at h
    rename_i newBase hnb
    simp only at h
    split at h
    · simp at h
    rename_i nqa hnqa
    obtain ⟨hd, hnb'⟩ := CoinAdd_ok hnb
    have h1 := IntSub_ok hrq
    have h2 := IntAdd_ok hnqa
    subst h1 h2 hnb'
    simp only [hrq, hnb, hnqa]
    exact ⟨hd, trivial, trivial⟩
  · intro hle
    rw [if_neg hle] at h ⊢
    split at h
    · simp at h
    rename_i product hprod
    split at h
    · simp at h
    rename_i eb heb
    split at h
    · simp at h
    rename_i refundBase hrb
    split at h
    · simp at h
    rename_i newQuote hnq
    simp only at h
    split at h
    · simp at h
    rename_i nba hnba
    obtain ⟨hd, hnq'⟩ := CoinAdd_ok hnq
    have h1 := IntSub_ok hrb
    have h2 := IntAdd_ok hnba
    have h3 := TruncateInt_ok heb
    have h4 := Mul_ok hprod
    have heb' : eb = expectedBase p qf := by
      rw [h3, h4, hcr]; rfl
    subst h1 h2 hnq' heb'
    simp only [hprod, heb, hrb, hnq, hnba]
    exact ⟨hd, trivial, trivial⟩

/-- When the quote reserve divides `10^18` times the base reserve, the ratio
is stored without rounding. -/
theorem currentRatio_exact (p : Pool) (hB : 0 ≤ p.BaseFund.Amount) (hQ : 0 < p.QuoteFund.Amount)
    (hex : p.QuoteFund.Amount ∣ p.BaseFund.Amount * 10 ^ 18) :
    currentRatio p * p.QuoteFund.Amount = p.BaseFund.Amount * precisionReuse := by
  have hP : (0 : Int) < precisionReuse := by decide
  have e : (10 ^ 18 : Int) = precisionReuse := by rw [precisionReuse_eq]; norm_num
  rw [e] at hex
  obtain ⟨r, hr⟩ := hex
  have hr0 : 0 ≤ r := by
    by_contra hc
    have : p.QuoteFund.Amount * r < 0 := mul_neg_of_pos_of_neg hQ (by omega)
    have : 0 ≤ p.BaseFund.Amount * precisionReuse := mul_nonneg hB (le_of_lt hP)
    omega
  have hnum : p.BaseFund.Amount * precisionReuse * precisionReuse * precisionReuse
      = (r * precisionReuse) * (p.QuoteFund.Amount * precisionReuse) := by
    rw [hr]; ring
  have hD : p.QuoteFund.Amount * precisionReuse ≠ 0 := ne_of_gt (mul_pos hQ hP)
  have ht : (p.BaseFund.Amount * precisionReuse * precisionReuse * precisionReuse).tdiv
      (p.QuoteFund.Amount * precisionReuse) = r * precisionReuse := by
    rw [hnum, Int.mul_tdiv_cancel _ hD]
  have hc : currentRatio p = r := by
    unfold currentRatio
    rw [ht]
    have hrP : 0 ≤ r * precisionReuse := mul_nonneg hr0 (le_of_lt hP)
    unfold chopPrecisionAndRound
    rw [if_neg (not_lt.mpr hrP)]
    obtain ⟨-, h1, h2⟩ := chopAbs_bounds (r * precisionReuse) hrP
    simp only [precisionReuse_eq] at h1 h2 ⊢
    omega
  rw [hc, hr]; ring

/-! ## C3: the second branch of `Deposit` -/

/-- C3, the code at the failing input: a deposit of 50 base and 30 quote into
a pool with reserves 100 and 100 takes the second branch, adds all 30 to the
quote reserve and returns one refund coin of 20 in the base denom, yet the
base reserve grows by the whole 50 and not by `50 - 20`. -/
theorem C3_deposit_else_keeps_refunded_base :
    0 < poolC3.BaseFund.Amount ∧ 0 < poolC3.QuoteFund.Amount ∧
    ¬ expectedQuote poolC3 ⟨"inj", 50⟩ ≤ 30 ∧
    (Deposit maxDecBitLenV045 poolC3 ⟨"inj", 50⟩ ⟨"usdt", 30⟩).panic = none ∧
    (Deposit maxDecBitLenV045 poolC3 ⟨"inj", 50⟩ ⟨"usdt", 30⟩).refund = [⟨"inj", 20⟩] ∧
    (Deposit maxDecBitLenV045 poolC3 ⟨"inj", 50⟩ ⟨"usdt", 30⟩).pool.QuoteFund.Amount
      = poolC3.QuoteFund.Amount + 30 ∧
    (Deposit maxDecBitLenV045 poolC3 ⟨"inj", 50⟩ ⟨"usdt", 30⟩).pool.BaseFund.Amount
      = poolC3.BaseFund.Amount + 50 ∧
    (Deposit maxDecBitLenV045 poolC3 ⟨"inj", 50⟩ ⟨"usdt", 30⟩).pool.BaseFund.Amount
      ≠ poolC3.BaseFund.Amount + (50 - 20) := by
  decide

/-! ## Calls that stop -/

theorem IntAdd_error {a b : Int} {e : Panic} (h : IntAdd a b = .error e) : e = .intOverflow := by
  unfold IntAdd at h
  split at h <;> simp at h
  exact h.symm

theorem IntSub_error {a b : Int} {e : Panic} (h : IntSub a b = .error e) : e = .intOverflow := by
  unfold IntSub at h
  split at h <;> simp at h
  exact h.symm

theorem setAmount_isSome (a : Account) (d d' : String) (v : Int) :
    ((a.setAmount d v).DenomToFund d').isSome = (a.DenomToFund d').isSome := by
  unfold Account.setAmount
  by_cases h : d' = d <;> simp [h]

/-- A call of `Buy` that stops leaves the pool as it was, and the account too
unless it stopped on an integer overflow. -/
theorem Buy_failed (p : Pool) (bid : Coin) (a : Account) (e : Panic)
    (h : (Buy maxDecBitLen p bid a).panic = some e) :
    (Buy maxDecBitLen p bid a).pool = p ∧ (e ≠ .intOverflow → (Buy maxDecBitLen p bid a).account = a) := by
  revert h
  unfold Buy
  repeat' split
  all_goals (try dsimp only)
  repeat' split
  all_goals intro h
  all_goals simp only [Option.some.injEq] at h
  all_goals (try exact ⟨rfl, fun _ => rfl⟩)
  · exfalso
    rename_i hden _ _ hheld _ _ _ _ _ _ _ _ _ _ _ _ _ _ _ _ _ _ _ _ hnone
    have h1 := congrArg Option.isSome hnone
    rw [setAmount_isSome, ← not_not.mp hden, hheld] at h1
    simp at h1
  · rename_i herr
    have h2 := IntSub_error herr
    subst h
    exact ⟨rfl, fun hne => absurd h2 hne⟩
  · simp at h

/-- A call of `Sell` that stops leaves the pool as it was, and the account too
unless it stopped on an integer overflow or a nil entry. -/
theorem Sell_failed (p : Pool) (ask : Coin) (a : Account) (e : Panic)
    (h : (Sell maxDecBitLen p ask a).panic = some e) :
    (Sell maxDecBitLen p ask a).pool = p ∧
    (e ≠ .intOverflow → e ≠ .nilPointer → (Sell maxDecBitLen p ask a).account = a) := by
  revert h
  unfold Sell
  repeat' split
  all_goals (try dsimp only)
  repeat' split
  all_goals intro h
  all_goals simp only [Option.some.injEq] at h
  all_goals (try exact ⟨rfl, fun _ _ => rfl⟩)
  · subst h
    exact ⟨rfl, fun _ hne => absurd rfl hne⟩
  · rename_i herr
    have h2 := IntSub_error herr
    subst h
    exact ⟨rfl, fun hne _ => absurd h2 hne⟩
  · simp at h

/-! ## C5: `Sell` with an ask in the base denom -/

/-- C5, the code at the failing input: on the pool and account of `main`
(distinct denoms, positive reserves, account holding both denoms) an ask of
1 inj, in the pool's base denom and within the account's base balance, makes
`Sell` stop with the invalid-denom error and change nothing. -/
theorem C5_sell_rejects_base_denom :
    poolMain.BaseFund.Denom ≠ poolMain.QuoteFund.Denom ∧
    0 < poolMain.BaseFund.Amount ∧ 0 < poolMain.QuoteFund.Amount ∧
    askMain.Denom = poolMain.BaseFund.Denom ∧
    accountMain.DenomToFund "inj" = some ⟨"inj", 10000000000000000000⟩ ∧
    accountMain.DenomToFund "usdt" = some ⟨"usdt", 1000000000⟩ ∧
    0 ≤ askMain.Amount ∧ askMain.Amount ≤ 10000000000000000000 ∧
    (Sell maxDecBitLenV045 poolMain askMain accountMain).panic = some (.invalidDenom "inj") ∧
    (Sell maxDecBitLenV045 poolMain askMain accountMain).pool = poolMain ∧
    (Sell maxDecBitLenV045 poolMain askMain accountMain).account.DenomToFund "inj"
      = some ⟨"inj", 10000000000000000000⟩ ∧
    (Sell maxDecBitLenV045 poolMain askMain accountMain).account.DenomToFund "usdt"
      = some ⟨"usdt", 1000000000⟩ := by
  decide

/-! ## C6: a trade followed by the opposite trade -/

/-- C6, the code at the failing input: on the pool of `main`, where the
product of the reserves is `k`, the first `Buy` succeeds and credits
`creditedMain` base units; the `Sell` of exactly that amount then stops, with
the invalid-denom error when the ask is in the base denom and with the
insufficient-funds error when the same amount is offered in the quote denom.
A `Sell` of 1 inj on the untouched pool stops as well. -/
theorem C6_buy_then_sell_stops :
    poolMain.BaseFund.Amount * poolMain.QuoteFund.Amount = poolMain.Constant ∧
    (Buy maxDecBitLenV045 poolMain bidMain accountMain).panic = none ∧
    (Buy maxDecBitLenV045 poolMain bidMain accountMain).account.DenomToFund "inj"
      = some ⟨"inj", 10000000000000000000 + creditedMain⟩ ∧
    (Sell maxDecBitLenV045 (Buy maxDecBitLenV045 poolMain bidMain accountMain).pool ⟨"inj", creditedMain⟩
      (Buy maxDecBitLenV045 poolMain bidMain accountMain).account).panic = some (.invalidDenom "inj") ∧
    (Sell maxDecBitLenV045 (Buy maxDecBitLenV045 poolMain bidMain accountMain).pool ⟨"usdt", creditedMain⟩
      (Buy maxDecBitLenV045 poolMain bidMain accountMain).account).panic = some .insufficientFund ∧
    (Sell maxDecBitLenV045 poolMain askMain accountMain).panic = some (.invalidDenom "inj") := by
  decide

/-! ## C7: wrong denomination -/

/-- C7: for every pool and account, a `Buy` whose bid denom differs from the
pool's quote denom, and a `Sell` whose ask denom differs from the pool's quote
denom (the denom `Sell` checks), stops with the invalid-denom error and
returns the pool and the account unchanged. -/
theorem C7_wrong_denom_rejected (p : Pool) (a : Account) (bid ask : Coin) :
    (bid.Denom ≠ p.QuoteFund.Denom →
      Buy maxDecBitLen p bid a = ⟨some (.invalidDenom bid.Denom), p, a⟩) ∧
    (ask.Denom ≠ p.QuoteFund.Denom →
      Sell maxDecBitLen p ask a = ⟨some (.invalidDenom ask.Denom), p, a⟩) := by
  constructor
  · intro h
    unfold Buy
    rw [if_pos h]
  · intro h
    unfold Sell
    rw [if_pos h]

/-- C7, witness: an inj-denominated bid and ask on the pool of `main`. -/
theorem C7_wrong_denom_rejected_witness :
    askMain.Denom ≠ poolMain.QuoteFund.Denom ∧
    Buy maxDecBitLenV045 poolMain askMain accountMain = ⟨some (.invalidDenom askMain.Denom), poolMain, accountMain⟩ ∧
    Sell maxDecBitLenV045 poolMain askMain accountMain
      = ⟨some (.invalidDenom askMain.Denom), poolMain, accountMain⟩ :=
  ⟨by decide,
    (C7_wrong_denom_rejected poolMain accountMain askMain askMain).1 (by decide),
    (C7_wrong_denom_rejected poolMain accountMain askMain askMain).2 (by decide)⟩

/-! ## C8: insufficient funds -/

/-- C8: for every pool and account and every bid in the pool's quote denom
whose amount exceeds the account's balance in that denom, `Buy` stops with
the insufficient-funds error and returns the pool and the account unchanged. -/
theorem C8_insufficient_funds_rejected (p : Pool) (a : Account) (bid held : Coin)
    (hden : bid.Denom = p.QuoteFund.Denom)
    (hheld : a.DenomToFund bid.Denom = some held)
    (hgt : held.Amount < bid.Amount) :
    Buy maxDecBitLen p bid a = ⟨some .insufficientFund, p, a⟩ := by
  unfold Buy
  rw [if_neg (not_not.mpr hden)]
  simp only [hheld]
  rw [if_pos hgt]

/-- C8, witness: a bid of 2000 usdt from the account of `main`, which holds 1000. -/
theorem C8_insufficient_funds_rejected_witness :
    bidTooLarge.Denom = poolMain.QuoteFund.Denom ∧
    accountMain.DenomToFund bidTooLarge.Denom = some ⟨"usdt", 1000000000⟩ ∧
    (1000000000 : Int) < bidTooLarge.Amount ∧
    Buy maxDecBitLenV045 poolMain bidTooLarge accountMain = ⟨some .insufficientFund, poolMain, accountMain⟩ :=
  ⟨by decide, by decide, by decide,
    C8_insufficient_funds_rejected poolMain accountMain bidTooLarge ⟨"usdt", 1000000000⟩
      (by decide) (by decide) (by decide)⟩

/-! ## C10: a new base reserve above the current one -/

/-- C10, counterexample: with reserves 1 and 1, `k = 100` and a bid of 1 the
new base reserve 50 exceeds the current one; `Buy` does not stop, sets the
reserves to 50 and 2, and lowers the account's base balance from 100 to 51. -/
theorem C10_buy_credits_negative_amount :
    bidC10.Denom = poolC10.QuoteFund.Denom ∧
    accountC10.DenomToFund "usdt" = some ⟨"usdt", 5⟩ ∧ bidC10.Amount ≤ 5 ∧
    accountC10.DenomToFund "inj" = some ⟨"inj", 100⟩ ∧
    poolC10.BaseFund.Amount < buyBase poolC10 bidC10 ∧
    (Buy maxDecBitLenV045 poolC10 bidC10 accountC10).panic = none ∧
    (Buy maxDecBitLenV045 poolC10 bidC10 accountC10).pool.BaseFund.Amount = 50 ∧
    (Buy maxDecBitLenV045 poolC10 bidC10 accountC10).pool.QuoteFund.Amount = 2 ∧
    (Buy maxDecBitLenV045 poolC10 bidC10 accountC10).account.DenomToFund "inj" = some ⟨"inj", 51⟩ ∧
    (Buy maxDecBitLenV045 poolC10 bidC10 accountC10).account.DenomToFund "usdt" = some ⟨"usdt", 4⟩ := by
  decide

/-- C10, amended: `Buy` has no check of the new base reserve against the
current one. On a pool with distinct denoms, a `Buy` that does not stop and
whose new base reserve exceeds the current one stores that new base reserve
and adds the negative amount `base - newBase` to the account's base balance,
which therefore decreases. -/
theorem C10_buy_above_reserve (p : Pool) (bid : Coin) (a : Account)
    (hden : p.BaseFund.Denom ≠ p.QuoteFund.Denom)
    (hgt : p.BaseFund.Amount < buyBase p bid)
    (h : (Buy maxDecBitLen p bid a).panic = none) :
    ∃ baseHeld : Coin,
      a.DenomToFund p.BaseFund.Denom = some baseHeld ∧
      (Buy maxDecBitLen p bid a).pool.BaseFund.Amount = buyBase p bid ∧
      (Buy maxDecBitLen p bid a).account.DenomToFund p.BaseFund.Denom =
        some { baseHeld with Amount := baseHeld.Amount + (p.BaseFund.Amount - buyBase p bid) } ∧
      p.BaseFund.Amount - buyBase p bid < 0 ∧
      baseHeld.Amount + (p.BaseFund.Amount - buyBase p bid) < baseHeld.Amount := by
  obtain ⟨held, baseHeld, quoteHeld, -, -, -, -, hbase, -, hpool, hacc⟩ := Buy_ok p bid a h
  refine ⟨baseHeld, hbase, ?_, ?_, by omega, by omega⟩
  · rw [hpool]
  · rw [hacc, setAmount_other _ _ _ _ hden, setAmount_same _ _ _ _ hbase]

/-- C10, witness: the pool with reserves 1 and 1 and `k = 100`. -/
theorem C10_buy_above_reserve_witness :
    poolC10.BaseFund.Denom ≠ poolC10.QuoteFund.Denom ∧
    poolC10.BaseFund.Amount < buyBase poolC10 bidC10 ∧
    (Buy maxDecBitLenV045 poolC10 bidC10 accountC10).panic = none ∧
    (∃ baseHeld : Coin,
      accountC10.DenomToFund poolC10.BaseFund.Denom = some baseHeld ∧
      (Buy maxDecBitLenV045 poolC10 bidC10 accountC10).pool.BaseFund.Amount = buyBase poolC10 bidC10 ∧
      (Buy maxDecBitLenV045 poolC10 bidC10 accountC10).account.DenomToFund poolC10.BaseFund.Denom =
        some { baseHeld with
          Amount := baseHeld.Amount + (poolC10.BaseFund.Amount - buyBase poolC10 bidC10) } ∧
      poolC10.BaseFund.Amount - buyBase poolC10 bidC10 < 0 ∧
      baseHeld.Amount + (poolC10.BaseFund.Amount - buyBase poolC10 bidC10) < baseHeld.Amount) :=
  ⟨by decide, by decide, by decide,
    C10_buy_above_reserve poolC10 bidC10 accountC10 (by decide) (by decide) (by decide)⟩

/-! ## The pool of `main` -/

/-- The call of `NewPool` in `main`, with 18 and 6 decimals, yields `poolMain`. -/
theorem NewPool_main :
    NewPool ⟨"inj", 100000000000000000000⟩ ⟨"usdt", 800000000⟩ 18 6
      80000000000000000000000000000 = .ok poolMain := by
  rfl

/-! ## Bit lengths and `NewPool` -/

/-- The halving count is the bit length: `n < 2^len` and `2^(len-1) <= n`. -/
theorem bitLenAux_spec (fuel n : Nat) (h : n ≤ fuel) :
    n < 2 ^ bitLenAux fuel n ∧ (n ≠ 0 → 2 ^ (bitLenAux fuel n - 1) ≤ n) := by
  induction fuel generalizing n with
  | zero =>
    have : n = 0 := by omega
    subst this
    simp [bitLenAux]
  | succ f ih =>
    unfold bitLenAux
    by_cases hn : n = 0
    · subst hn; simp
    · rw [if_neg hn]
      have hle : n / 2 ≤ f := by omega
      obtain ⟨h1, h2⟩ := ih (n / 2) hle
      constructor
      · rw [pow_succ]; omega
      · intro _
        simp only [Nat.add_sub_cancel]
        by_cases h0 : n / 2 = 0
        · have : n = 1 := by omega
          subst this
          simp [bitLenAux]
          cases f <;> simp [bitLenAux]
        · have h3 := h2 h0
          have h4 : bitLenAux f (n / 2) ≠ 0 := by
            intro hz
            rw [hz] at h1
            simp at h1
            exact h0 h1
          obtain ⟨m, hm⟩ := Nat.exists_eq_succ_of_ne_zero h4
          rw [hm] at h3 ⊢
          simp only [Nat.succ_eq_add_one, Nat.add_sub_cancel] at h3
          rw [Nat.succ_eq_add_one, pow_succ]
          omega

/-- The bit length exceeds `n` exactly when the magnitude reaches `2^n`. -/
theorem bitLen_gt_iff (x : Int) (n : Nat) : n < bitLen x ↔ 2 ^ n ≤ x.natAbs := by
  obtain ⟨h1, h2⟩ := bitLenAux_spec x.natAbs x.natAbs le_rfl
  unfold bitLen
  constructor
  · intro h
    have hx : x.natAbs ≠ 0 := by
      intro h0
      rw [h0] at h
      simp [bitLenAux] at h
    have h3 := h2 hx
    calc 2 ^ n ≤ 2 ^ (bitLenAux x.natAbs x.natAbs - 1) :=
          Nat.pow_le_pow_right (by norm_num) (by omega)
      _ ≤ x.natAbs := h3
  · intro h
    by_contra hc
    have h4 : 2 ^ bitLenAux x.natAbs x.natAbs ≤ 2 ^ n :=
      Nat.pow_le_pow_right (by norm_num) (by omega)
    omega

/-- `MulRaw(10)` stops exactly when the product reaches `2^256`. -/
theorem IntMulRaw_ten (x : Int) :
    IntMulRaw x 10 =
      if 2 ^ 256 ≤ (x * 10).natAbs then .error .intOverflow else .ok (x * 10) := by
  have h10 : bitLen 10 = 4 := by rfl
  have hmul : (x * 10).natAbs = x.natAbs * 10 := by
    rw [Int.natAbs_mul]; rfl
  unfold IntMulRaw bitLenExceeds maxBitLen
  simp only [decide_eq_true_eq]
  rw [h10, hmul]
  by_cases hpre : 256 < bitLen x + 4 - 1
  · rw [if_pos hpre]
    have h1 : 253 < bitLen x := by omega
    rw [bitLen_gt_iff] at h1
    have h2 : (2 : Nat) ^ 256 = 2 ^ 253 * 8 := by norm_num
    have h3 : 2 ^ 256 ≤ x.natAbs * 10 := by omega
    rw [if_pos h3]
  · rw [if_neg hpre]

/-- The loop multiplies by `10^n` unless that product reaches `2^256`. -/
theorem scaleLoop_eq (n : Nat) (x : Int) (hx : x.natAbs < 2 ^ 256) :
    scaleLoop n x =
      if 2 ^ 256 ≤ (x * 10 ^ n).natAbs then .error .intOverflow else .ok (x * 10 ^ n) := by
  induction n generalizing x with
  | zero =>
    simp only [scaleLoop, pow_zero, mul_one]
    rw [if_neg (by omega)]
  | succ n ih =>
    simp only [scaleLoop]
    rw [IntMulRaw_ten]
    have hpow : x * 10 ^ (n + 1) = x * 10 * 10 ^ n := by ring
    by_cases h : 2 ^ 256 ≤ (x * 10).natAbs
    · rw [if_pos h]
      simp only
      have h2 : 2 ^ 256 ≤ (x * 10 ^ (n + 1)).natAbs := by
        rw [hpow, Int.natAbs_mul]
        have : 1 ≤ ((10 : Int) ^ n).natAbs := by
          rw [Int.natAbs_pow]
          exact Nat.one_le_pow _ _ (by decide)
        calc 2 ^ 256 ≤ (x * 10).natAbs := h
          _ = (x * 10).natAbs * 1 := (Nat.mul_one _).symm
          _ ≤ (x * 10).natAbs * ((10 : Int) ^ n).natAbs := Nat.mul_le_mul_left _ this
      rw [if_pos h2]
    · rw [if_neg h]
      simp only
      rw [ih (x * 10) (by omega), hpow]

/-- Starting from 1 the loop yields `10^n` for `n <= 77` and stops above. -/
theorem scaleLoop_one (n : Nat) :
    scaleLoop n 1 = if n ≤ 77 then .ok (10 ^ n) else .error .intOverflow := by
  rw [scaleLoop_eq n 1 (by decide), one_mul, Int.natAbs_pow]
  have h10 : (10 : Int).natAbs = 10 := rfl
  rw [h10]
  by_cases hn : n ≤ 77
  · rw [if_pos hn]
    have : (10 : Nat) ^ n < 2 ^ 256 :=
      calc (10 : Nat) ^ n ≤ 10 ^ 77 := Nat.pow_le_pow_right (by norm_num) hn
        _ < 2 ^ 256 := by norm_num
    rw [if_neg (by omega)]
  · rw [if_neg hn]
    have : (2 : Nat) ^ 256 ≤ 10 ^ n :=
      calc (2 : Nat) ^ 256 ≤ 10 ^ 78 := by norm_num
        _ ≤ 10 ^ n := Nat.pow_le_pow_right (by norm_num) (by omega)
    rw [if_pos this]

/-- `NewPool` in closed form: it stops exactly when a count exceeds 77. -/
theorem NewPool_eq (bf qf : Coin) (bd qd k : Int) :
    NewPool bf qf bd qd k =
      if bd.toNat ≤ 77 ∧ qd.toNat ≤ 77 then
        .ok { BaseDecimal := 10 ^ bd.toNat, BaseFund := bf,
              QuoteDecimal := 10 ^ qd.toNat, QuoteFund := qf, Constant := k }
      else .error .intOverflow := by
  unfold NewPool
  rw [scaleLoop_one, scaleLoop_one]
  by_cases h1 : bd.toNat ≤ 77 <;> by_cases h2 : qd.toNat ≤ 77 <;> simp [h1, h2]

/-! ## C18: the scales set by `NewPool` -/

/-- C18, counterexample: with 78 base decimals `NewPool` stops on the integer
overflow of `10^78` and returns no pool. -/
theorem C18_NewPool_overflows :
    (0 : Int) ≤ 78 ∧ (0 : Int) ≤ 6 ∧
    NewPool ⟨"inj", 100000000000000000000⟩ ⟨"usdt", 800000000⟩ 78 6
      80000000000000000000000000000 = .error .intOverflow := by
  refine ⟨by decide, by decide, ?_⟩
  rw [NewPool_eq]
  rfl

/-- C18, amended: for decimal counts from 0 to 77, `NewPool` returns a pool
whose `BaseDecimal` is `10^baseDecimal`, whose `QuoteDecimal` is
`10^quoteDecimal`, and whose `BaseFund`, `QuoteFund` and `Constant` are the
arguments passed in. -/
theorem C18_NewPool_scales (bf qf : Coin) (k : Int) (bd qd : Nat)
    (hb : bd ≤ 77) (hq : qd ≤ 77) :
    NewPool bf qf bd qd k =
      .ok { BaseDecimal := 10 ^ bd, BaseFund := bf,
            QuoteDecimal := 10 ^ qd, QuoteFund := qf, Constant := k } := by
  rw [NewPool_eq, if_pos ⟨by simpa using hb, by simpa using hq⟩]
  simp

/-- C18, witness: the call of `NewPool` in `main`, with 18 and 6 decimals. -/
theorem C18_NewPool_scales_witness :
    18 ≤ 77 ∧ 6 ≤ 77 ∧
    NewPool ⟨"inj", 100000000000000000000⟩ ⟨"usdt", 800000000⟩ ((18 : Nat) : Int)
        ((6 : Nat) : Int) 80000000000000000000000000000 =
      .ok { BaseDecimal := 10 ^ 18, BaseFund := ⟨"inj", 100000000000000000000⟩,
            QuoteDecimal := 10 ^ 6, QuoteFund := ⟨"usdt", 800000000⟩,
            Constant := 80000000000000000000000000000 } :=
  ⟨by decide, by decide,
    C18_NewPool_scales ⟨"inj", 100000000000000000000⟩ ⟨"usdt", 800000000⟩
      80000000000000000000000000000 18 6 (by decide) (by decide)⟩

/-! ## C19: what `NewPool` checks -/

/-- C19, counterexample: with a base amount of 0, a quote amount of -5 and the
same denom on both sides, `NewPool` returns a pool holding exactly these funds. -/
theorem C19_NewPool_accepts_degenerate_funds :
    (⟨"inj", 0⟩ : Coin).Amount ≤ 0 ∧ (⟨"inj", -5⟩ : Coin).Amount ≤ 0 ∧
    (⟨"inj", 0⟩ : Coin).Denom = (⟨"inj", -5⟩ : Coin).Denom ∧
    NewPool ⟨"inj", 0⟩ ⟨"inj", -5⟩ 18 6 0 =
      .ok { BaseDecimal := 1000000000000000000, BaseFund := ⟨"inj", 0⟩,
            QuoteDecimal := 1000000, QuoteFund := ⟨"inj", -5⟩, Constant := 0 } := by
  refine ⟨by decide, by decide, by decide, ?_⟩
  rfl

/-- C19, amended: `NewPool` does not look at the funds. It stops, on an
integer overflow, exactly when a decimal count exceeds 77; otherwise it
returns a pool holding the funds and `k` passed in, whatever the amounts and
the denoms are. -/
theorem C19_NewPool_no_validation (bf qf : Coin) (bd qd k : Int) :
    (77 < bd ∨ 77 < qd → NewPool bf qf bd qd k = .error .intOverflow) ∧
    (bd ≤ 77 → qd ≤ 77 →
      ∃ p : Pool, NewPool bf qf bd qd k = .ok p ∧
        p.BaseFund = bf ∧ p.QuoteFund = qf ∧ p.Constant = k) := by
  constructor
  · intro h
    rw [NewPool_eq, if_neg]
    intro ⟨h1, h2⟩
    omega
  · intro h1 h2
    refine ⟨{ BaseDecimal := 10 ^ bd.toNat, BaseFund := bf,
              QuoteDecimal := 10 ^ qd.toNat, QuoteFund := qf, Constant := k }, ?_, rfl, rfl, rfl⟩
    rw [NewPool_eq, if_pos ⟨by omega, by omega⟩]

/-- C19, witness: zero and negative amounts with equal denoms, 18 and 6 decimals. -/
theorem C19_NewPool_no_validation_witness :
    (18 : Int) ≤ 77 ∧ (6 : Int) ≤ 77 ∧
    ∃ p : Pool, NewPool ⟨"inj", 0⟩ ⟨"inj", -5⟩ 18 6 0 = .ok p ∧
      p.BaseFund = ⟨"inj", 0⟩ ∧ p.QuoteFund = ⟨"inj", -5⟩ ∧ p.Constant = 0 :=
  ⟨by decide, by decide,
    (C19_NewPool_no_validation ⟨"inj", 0⟩ ⟨"inj", -5⟩ 18 6 0).2 (by decide) (by decide)⟩

/-! ## Facts about `Sell` -/

/-- What a call of `Sell` that does not stop has done. -/
theorem Sell_ok (p : Pool) (ask : Coin) (a : Account) (h : (Sell maxDecBitLen p ask a).panic = none) :
    ∃ held baseHeld,
      ask.Denom = p.QuoteFund.Denom ∧
      a.DenomToFund p.QuoteFund.Denom = some held ∧ ask.Amount ≤ held.Amount ∧
      p.QuoteFund.Amount + ask.Amount ≠ 0 ∧
      (a.setAmount p.QuoteFund.Denom
        (held.Amount + (p.QuoteFund.Amount - sellQuote p ask))).DenomToFund p.BaseFund.Denom
        = some baseHeld ∧
      (Sell maxDecBitLen p ask a).pool =
        { p with
          BaseFund := ⟨p.QuoteFund.Denom, p.QuoteFund.Amount + ask.Amount⟩,
          QuoteFund := { p.QuoteFund with Amount := sellQuote p ask } } ∧
      (Sell maxDecBitLen p ask a).account =
        ((a.setAmount p.QuoteFund.Denom
            (held.Amount + (p.QuoteFund.Amount - sellQuote p ask))).setAmount
          p.BaseFund.Denom (baseHeld.Amount - ask.Amount)) := by
  unfold sellQuote
  unfold Sell at h ⊢
  split at h
  · simp at h
  rename_i hden
  have hden := not_not.mp hden
  split at h
  · simp at h
  rename_i held hheld
  split at h
  · simp at h
  rename_i hle
  split at h
  · simp at h
  rename_i tmpBase htmp
  split at h
  · simp at h
  rename_i quotient hquo
  split at h
  · simp at h
  rename_i expQuote hexp
  split at h
  · simp at h
  rename_i sentQuote hsent
  split at h
  · simp at h
  rename_i quoteHeld hqh
  split at h
  · simp at h
  rename_i credited hcred
  simp only at h
  split at h
  · simp at h
  rename_i baseHeld hbase
  split at h
  · simp at h
  rename_i debited hdeb
  obtain ⟨_, htq⟩ := CoinAdd_ok htmp
  subst htq
  obtain ⟨hne, hy⟩ := QuoTruncate_ok hquo hexp
  have hs := IntSub_ok hsent
  have hc := IntAdd_ok hcred
  have hd := IntSub_ok hdeb
  have hsame : held = quoteHeld := by
    rw [hden] at hheld
    rw [hheld] at hqh
    exact Option.some.inj hqh
  subst hsame
  subst hy hs hc hd
  refine ⟨held, baseHeld, hden, hqh, not_lt.mp hle, hne, hbase, ?_, ?_⟩
  · simp only [if_neg (not_not.mpr hden), hheld, hle, htmp, hquo, hexp, hsent, hqh, hcred,
      hbase, hdeb]
    simp
  · simp only [if_neg (not_not.mpr hden), hheld, hle, htmp, hquo, hexp, hsent, hqh, hcred,
      hbase, hdeb]
    simp

/-- Rounding keeps a non-negative integer non-negative. -/
theorem chopPrecisionAndRound_nonneg (x : Int) (hx : 0 ≤ x) : 0 ≤ chopPrecisionAndRound x := by
  unfold chopPrecisionAndRound
  rw [if_neg (not_lt.mpr hx)]
  exact (chopAbs_bounds x hx).1

/-- With non-negative reserves the stored ratio is non-negative. -/
theorem currentRatio_nonneg (p : Pool) (hB : 0 ≤ p.BaseFund.Amount) (hQ : 0 ≤ p.QuoteFund.Amount) :
    0 ≤ currentRatio p := by
  have hP : (0 : Int) ≤ precisionReuse := by decide
  unfold currentRatio
  apply chopPrecisionAndRound_nonneg
  exact Int.tdiv_nonneg (by positivity) (by positivity)

/-- The reserve computed from a positive `k` and a positive divisor is
non-negative, and positive when the divisor is at most `k`. -/
theorem quoTrunc_scaled_pos (k q : Int) (hk : 0 ≤ k) (hq : 0 < q) :
    0 ≤ quoTrunc (k * precisionReuse) (q * precisionReuse) ∧
    (q ≤ k → 0 < quoTrunc (k * precisionReuse) (q * precisionReuse)) := by
  obtain ⟨h0, h1, -⟩ := quoTrunc_scaled k q hk hq
  refine ⟨h0, fun hle => ?_⟩
  by_contra hc
  have hy : quoTrunc (k * precisionReuse) (q * precisionReuse) = 0 := by omega
  rw [hy] at h1
  omega

/-- When `k` is at most `B * q`, the reserve computed from `k` and `q` is at most `B`. -/
theorem quoTrunc_scaled_le (k q B : Int) (hq : 0 < q) (hB : 0 ≤ B) (hk : k ≤ B * q) :
    quoTrunc (k * precisionReuse) (q * precisionReuse) ≤ B := by
  rcases le_or_lt 0 k with hk0 | hk0
  · obtain ⟨-, -, h2⟩ := quoTrunc_scaled k q hk0 hq
    set y := quoTrunc (k * precisionReuse) (q * precisionReuse)
    rw [precisionReuse_eq] at h2
    by_contra hc
    have h3 : B + 1 ≤ y := by omega
    have h4 : (B + 1) * q ≤ y * q := mul_le_mul_of_nonneg_right h3 (le_of_lt hq)
    nlinarith
  · obtain ⟨h0, -, -⟩ := quoTrunc_scaled (-k) q (by omega) hq
    rw [neg_mul, quoTrunc_neg_left] at h0
    omega

/-- Reading an entry after an assignment to `denom`. -/
theorem setAmount_lookup (a : Account) (d d' : String) (v : Int) :
    (a.setAmount d v).DenomToFund d' =
      if d' = d then (a.DenomToFund d').map (fun c => { c with Amount := v })
      else a.DenomToFund d' := rfl

/-- Every balance of the account of `main` is non-negative. -/
theorem accountMain_nonneg : ∀ d c, accountMain.DenomToFund d = some c → 0 ≤ c.Amount := by
  intro d c hc
  simp only [accountMain, NewAccount] at hc
  split_ifs at hc
  · rw [← Option.some.inj hc]; decide
  · rw [← Option.some.inj hc]; decide

/-! ## C13: the denoms of the reserves -/

/-- `Deposit` and `Buy` never change the denom of either reserve. -/
theorem Deposit_Buy_keep_denoms (p : Pool) (bf qf bid : Coin) (a : Account) :
    ((Deposit maxDecBitLen p bf qf).panic = none →
      (Deposit maxDecBitLen p bf qf).pool.BaseFund.Denom = p.BaseFund.Denom ∧
      (Deposit maxDecBitLen p bf qf).pool.QuoteFund.Denom = p.QuoteFund.Denom) ∧
    ((Buy maxDecBitLen p bid a).panic = none →
      (Buy maxDecBitLen p bid a).pool.BaseFund.Denom = p.BaseFund.Denom ∧
      (Buy maxDecBitLen p bid a).pool.QuoteFund.Denom = p.QuoteFund.Denom) := by
  constructor
  · intro h
    obtain ⟨-, -, hthen, helse⟩ := Deposit_ok p bf qf h
    by_cases hbr : expectedQuote p bf ≤ qf.Amount
    · obtain ⟨-, hpool, -⟩ := hthen hbr
      rw [hpool]; exact ⟨rfl, rfl⟩
    · obtain ⟨-, hpool, -⟩ := helse hbr
      rw [hpool]; exact ⟨rfl, rfl⟩
  · intro h
    obtain ⟨_, _, _, -, -, -, -, -, -, hpool, -⟩ := Buy_ok p bid a h
    rw [hpool]; exact ⟨rfl, rfl⟩

/-- C13, the code at the failing input: on a pool with base denom inj and
quote denom usdt, a `Sell` of 10 usdt by an account holding 50 of each
succeeds and leaves a pool whose base denom is usdt, equal to its quote denom. -/
theorem C13_sell_overwrites_base_denom :
    poolC3.BaseFund.Denom = "inj" ∧ poolC3.QuoteFund.Denom = "usdt" ∧
    poolC3.BaseFund.Denom ≠ poolC3.QuoteFund.Denom ∧
    (Sell maxDecBitLenV045 poolC3 askQuote accountC13).panic = none ∧
    (Sell maxDecBitLenV045 poolC3 askQuote accountC13).pool.BaseFund.Denom = "usdt" ∧
    (Sell maxDecBitLenV045 poolC3 askQuote accountC13).pool.BaseFund.Denom ≠ poolC3.BaseFund.Denom ∧
    (Sell maxDecBitLenV045 poolC3 askQuote accountC13).pool.BaseFund.Denom
      = (Sell maxDecBitLenV045 poolC3 askQuote accountC13).pool.QuoteFund.Denom := by
  decide

/-! ## C14: the constant and the scales -/

/-- C14: for every pool and every call of `Deposit`, `Buy` or `Sell`, whether
it stops or not, the pool after the call has the same `Constant`,
`BaseDecimal` and `QuoteDecimal` as before. -/
theorem C14_constant_and_scales_kept (p : Pool) (c1 c2 : Coin) (a : Account) :
    ((Deposit maxDecBitLen p c1 c2).pool.Constant = p.Constant ∧
      (Deposit maxDecBitLen p c1 c2).pool.BaseDecimal = p.BaseDecimal ∧
      (Deposit maxDecBitLen p c1 c2).pool.QuoteDecimal = p.QuoteDecimal) ∧
    ((Buy maxDecBitLen p c1 a).pool.Constant = p.Constant ∧
      (Buy maxDecBitLen p c1 a).pool.BaseDecimal = p.BaseDecimal ∧
      (Buy maxDecBitLen p c1 a).pool.QuoteDecimal = p.QuoteDecimal) ∧
    ((Sell maxDecBitLen p c1 a).pool.Constant = p.Constant ∧
      (Sell maxDecBitLen p c1 a).pool.BaseDecimal = p.BaseDecimal ∧
      (Sell maxDecBitLen p c1 a).pool.QuoteDecimal = p.QuoteDecimal) := by
  refine ⟨?_, ?_, ?_⟩
  · unfold Deposit
    repeat' split
    all_goals (try dsimp only)
    all_goals repeat' split
    all_goals exact ⟨rfl, rfl, rfl⟩
  · cases hb : (Buy maxDecBitLen p c1 a).panic with
    | none =>
      obtain ⟨_, _, _, -, -, -, -, -, -, hpool, -⟩ := Buy_ok p c1 a hb
      rw [hpool]; exact ⟨rfl, rfl, rfl⟩
    | some e =>
      rw [(Buy_failed p c1 a e hb).1]; exact ⟨rfl, rfl, rfl⟩
  · cases hs : (Sell maxDecBitLen p c1 a).panic with
    | none =>
      obtain ⟨_, _, -, -, -, -, -, hpool, -⟩ := Sell_ok p c1 a hs
      rw [hpool]; exact ⟨rfl, rfl, rfl⟩
    | some e =>
      rw [(Sell_failed p c1 a e hs).1]; exact ⟨rfl, rfl, rfl⟩

/-- Rounding a non-negative multiple of `10^18` gives back the multiplier. -/
theorem chopPrecisionAndRound_mul (x : Int) (hx : 0 ≤ x) :
    chopPrecisionAndRound (x * precisionReuse) = x := by
  have hP : (0 : Int) ≤ precisionReuse := by decide
  have hxP : 0 ≤ x * precisionReuse := mul_nonneg hx hP
  unfold chopPrecisionAndRound
  rw [if_neg (not_lt.mpr hxP)]
  obtain ⟨-, h1, h2⟩ := chopAbs_bounds (x * precisionReuse) hxP
  simp only [precisionReuse_eq] at h1 h2 ⊢
  omega

/-- With a positive stored ratio and a non-negative base amount,
`expectedQuote` is the quotient of the base amount by the ratio up to rounding. -/
theorem expectedQuote_bounds (p : Pool) (bf : Coin) (hr : 0 < currentRatio p)
    (hbf : 0 ≤ bf.Amount) :
    0 ≤ expectedQuote p bf ∧
    bf.Amount * precisionReuse < (expectedQuote p bf + 1) * currentRatio p ∧
    2 * precisionReuse * (expectedQuote p bf * currentRatio p - bf.Amount * precisionReuse)
      ≤ currentRatio p :=
  quoTrunc_bounds (bf.Amount * precisionReuse) (currentRatio p)
    (mul_nonneg hbf (by decide)) hr

/-- When the ratio is stored exactly, `expectedQuote` is within one unit of
`baseFunds * quote / base`. -/
theorem expectedQuote_exact_near (p : Pool) (bf : Coin)
    (hB : 0 < p.BaseFund.Amount) (hQ : 0 < p.QuoteFund.Amount) (hbf : 0 ≤ bf.Amount)
    (hex : p.QuoteFund.Amount ∣ p.BaseFund.Amount * 10 ^ 18) :
    |expectedQuote p bf * p.BaseFund.Amount - bf.Amount * p.QuoteFund.Amount|
      < p.BaseFund.Amount := by
  have hP : (0 : Int) < precisionReuse := by decide
  have hrat := currentRatio_exact p (le_of_lt hB) hQ hex
  have hrpos : 0 < currentRatio p := by
    have : 0 < currentRatio p * p.QuoteFund.Amount := by
      rw [hrat]; exact mul_pos hB hP
    exact pos_of_mul_pos_left this (le_of_lt hQ)
  obtain ⟨-, h1, h2⟩ := expectedQuote_bounds p bf hrpos hbf
  set y := expectedQuote p bf
  set r := currentRatio p
  set B := p.BaseFund.Amount
  set Q := p.QuoteFund.Amount
  rw [abs_lt]
  constructor
  · have h3 : bf.Amount * precisionReuse * Q < (y + 1) * r * Q :=
      mul_lt_mul_of_pos_right h1 hQ
    have h4 : (bf.Amount * Q) * precisionReuse < ((y + 1) * B) * precisionReuse := by
      calc (bf.Amount * Q) * precisionReuse = bf.Amount * precisionReuse * Q := by ring
        _ < (y + 1) * r * Q := h3
        _ = (y + 1) * (r * Q) := by ring
        _ = ((y + 1) * B) * precisionReuse := by rw [hrat]; ring
    have h5 := lt_of_mul_lt_mul_right h4 (le_of_lt hP)
    linarith
  · have h3 : 2 * precisionReuse * (y * r - bf.Amount * precisionReuse) * Q ≤ r * Q :=
      mul_le_mul_of_nonneg_right h2 (le_of_lt hQ)
    have h4 : (2 * precisionReuse * (y * B - bf.Amount * Q)) * precisionReuse
        ≤ B * precisionReuse := by
      calc (2 * precisionReuse * (y * B - bf.Amount * Q)) * precisionReuse
          = 2 * precisionReuse * (y * (B * precisionReuse)
              - bf.Amount * precisionReuse * Q) := by ring
        _ = 2 * precisionReuse * (y * (r * Q) - bf.Amount * precisionReuse * Q) := by
            rw [hrat]
        _ = 2 * precisionReuse * (y * r - bf.Amount * precisionReuse) * Q := by ring
        _ ≤ r * Q := h3
        _ = B * precisionReuse := hrat
    have h5 := le_of_mul_le_mul_right h4 hP
    rw [precisionReuse_eq] at h5
    nlinarith

/-! ## C15: the first branch of `Deposit` -/

/-- C15, counterexample: on a pool with reserves 100 and 200, for a deposit of
10 base and 100 quote the spec's `expectedQuote` (`10 / (200 / 100)`) is 5, at
most the 100 offered, yet the quote reserve grows by 20 and the refund is 80,
not 5 and 95. -/
theorem C15_deposit_uses_base_per_quote :
    0 < poolC15.BaseFund.Amount ∧ 0 < poolC15.QuoteFund.Amount ∧
    specExpectedQuote poolC15 ⟨"inj", 10⟩ = 5 ∧
    specExpectedQuote poolC15 ⟨"inj", 10⟩ ≤ (⟨"usdt", 100⟩ : Coin).Amount ∧
    (Deposit maxDecBitLenV045 poolC15 ⟨"inj", 10⟩ ⟨"usdt", 100⟩).panic = none ∧
    (Deposit maxDecBitLenV045 poolC15 ⟨"inj", 10⟩ ⟨"usdt", 100⟩).pool.BaseFund.Amount
      = poolC15.BaseFund.Amount + 10 ∧
    (Deposit maxDecBitLenV045 poolC15 ⟨"inj", 10⟩ ⟨"usdt", 100⟩).pool.QuoteFund.Amount
      = poolC15.QuoteFund.Amount + 20 ∧
    (Deposit maxDecBitLenV045 poolC15 ⟨"inj", 10⟩ ⟨"usdt", 100⟩).pool.QuoteFund.Amount
      ≠ poolC15.QuoteFund.Amount + specExpectedQuote poolC15 ⟨"inj", 10⟩ ∧
    (Deposit maxDecBitLenV045 poolC15 ⟨"inj", 10⟩ ⟨"usdt", 100⟩).refund = [⟨"usdt", 80⟩] := by
  decide

/-- C15, amended: in `Deposit` the ratio is base reserve over quote reserve,
rounded at 18 decimals, and `expectedQuote` is the base amount divided by it,
rounded and then truncated. For a `Deposit` that does not stop with
`expectedQuote <= quoteFunds.amount`, the base reserve grows by exactly the
base amount, the quote reserve by exactly `expectedQuote`, and the result is
one refund coin, in the quote denom, of `quoteFunds.amount - expectedQuote`;
on positive reserves with a non-negative base amount and a ratio stored
exactly, `expectedQuote` is within one unit of `baseFunds * quote / base`. -/
theorem C15_deposit_first_branch (p : Pool) (bf qf : Coin)
    (hbranch : expectedQuote p bf ≤ qf.Amount)
    (h : (Deposit maxDecBitLen p bf qf).panic = none) :
    (Deposit maxDecBitLen p bf qf).pool.BaseFund.Amount = p.BaseFund.Amount + bf.Amount ∧
    (Deposit maxDecBitLen p bf qf).pool.QuoteFund.Amount = p.QuoteFund.Amount + expectedQuote p bf ∧
    (Deposit maxDecBitLen p bf qf).refund = [⟨p.QuoteFund.Denom, qf.Amount - expectedQuote p bf⟩] ∧
    (0 < p.BaseFund.Amount → 0 < p.QuoteFund.Amount → 0 ≤ bf.Amount →
      p.QuoteFund.Amount ∣ p.BaseFund.Amount * 10 ^ 18 →
      |expectedQuote p bf * p.BaseFund.Amount - bf.Amount * p.QuoteFund.Amount|
        < p.BaseFund.Amount) := by
  obtain ⟨-, -, hthen, -⟩ := Deposit_ok p bf qf h
  obtain ⟨-, hpool, hrefund⟩ := hthen hbranch
  refine ⟨?_, ?_, hrefund, fun hB hQ hbf hex => expectedQuote_exact_near p bf hB hQ hbf hex⟩
  · rw [hpool]
  · rw [hpool]

/-- C15, witness: 100 inj and 1000 usdt deposited into the pool of `main`. -/
theorem C15_deposit_first_branch_witness :
    expectedQuote poolMain depositBase ≤ depositQuote.Amount ∧
    (Deposit maxDecBitLenV045 poolMain depositBase depositQuote).panic = none ∧
    0 < poolMain.BaseFund.Amount ∧ 0 < poolMain.QuoteFund.Amount ∧ 0 ≤ depositBase.Amount ∧
    poolMain.QuoteFund.Amount ∣ poolMain.BaseFund.Amount * 10 ^ 18 ∧
    (Deposit maxDecBitLenV045 poolMain depositBase depositQuote).pool.BaseFund.Amount
      = poolMain.BaseFund.Amount + depositBase.Amount ∧
    (Deposit maxDecBitLenV045 poolMain depositBase depositQuote).pool.QuoteFund.Amount
      = poolMain.QuoteFund.Amount + expectedQuote poolMain depositBase ∧
    (Deposit maxDecBitLenV045 poolMain depositBase depositQuote).refund
      = [⟨poolMain.QuoteFund.Denom, depositQuote.Amount - expectedQuote poolMain depositBase⟩] ∧
    |expectedQuote poolMain depositBase * poolMain.BaseFund.Amount
        - depositBase.Amount * poolMain.QuoteFund.Amount| < poolMain.BaseFund.Amount :=
  ⟨by decide, by decide, by decide, by decide, by decide, by decide,
    (@C15_deposit_first_branch maxDecBitLenV045 poolMain depositBase depositQuote
      (by decide) (by decide)).1,
    (@C15_deposit_first_branch maxDecBitLenV045 poolMain depositBase depositQuote
      (by decide) (by decide)).2.1,
    (@C15_deposit_first_branch maxDecBitLenV045 poolMain depositBase depositQuote
      (by decide) (by decide)).2.2.1,
    (@C15_deposit_first_branch maxDecBitLenV045 poolMain depositBase depositQuote
      (by decide) (by decide)).2.2.2
      (by decide) (by decide) (by decide) (by decide)⟩

/-! ## C20: sign of the refund -/

/-- C20: for every `Deposit` that does not stop, on a pool with positive
reserves and with non-negative funds, the result is one refund coin of
non-negative amount; in the second branch (`expectedQuote > quoteFunds.amount`)
the recomputed `expectedBase` does not exceed `baseFunds.amount`. -/
theorem C20_refund_nonneg (p : Pool) (bf qf : Coin)
    (hB : 0 < p.BaseFund.Amount) (hQ : 0 < p.QuoteFund.Amount)
    (hbf : 0 ≤ bf.Amount) (hqf : 0 ≤ qf.Amount)
    (h : (Deposit maxDecBitLen p bf qf).panic = none) :
    (∃ c : Coin, (Deposit maxDecBitLen p bf qf).refund = [c] ∧ 0 ≤ c.Amount) ∧
    (¬ expectedQuote p bf ≤ qf.Amount → expectedBase p qf ≤ bf.Amount) := by
  have hP : (0 : Int) < precisionReuse := by decide
  obtain ⟨-, hr, hthen, helse⟩ := Deposit_ok p bf qf h
  have hr0 : 0 < currentRatio p :=
    lt_of_le_of_ne (currentRatio_nonneg p (le_of_lt hB) (le_of_lt hQ)) (Ne.symm hr)
  have hbase : ¬ expectedQuote p bf ≤ qf.Amount → expectedBase p qf ≤ bf.Amount := by
    intro hbr
    obtain ⟨-, -, h2⟩ := expectedQuote_bounds p bf hr0 hbf
    have hy : qf.Amount + 1 ≤ expectedQuote p bf := by omega
    have h3 : (qf.Amount + 1) * currentRatio p ≤ expectedQuote p bf * currentRatio p :=
      mul_le_mul_of_nonneg_right hy (le_of_lt hr0)
    have h4 : currentRatio p * qf.Amount < bf.Amount * precisionReuse := by
      rw [precisionReuse_eq] at h2 ⊢
      nlinarith
    have hprod : 0 ≤ currentRatio p * qf.Amount := mul_nonneg (le_of_lt hr0) hqf
    unfold expectedBase
    rw [show currentRatio p * (qf.Amount * precisionReuse)
        = (currentRatio p * qf.Amount) * precisionReuse by ring,
      chopPrecisionAndRound_mul _ hprod, Int.tdiv_eq_ediv hprod (le_of_lt hP)]
    have h5 : currentRatio p * qf.Amount / precisionReuse < bf.Amount :=
      Int.ediv_lt_of_lt_mul hP h4
    omega
  refine ⟨?_, hbase⟩
  by_cases hbr : expectedQuote p bf ≤ qf.Amount
  · obtain ⟨-, -, hrefund⟩ := hthen hbr
    exact ⟨_, hrefund, by simp only; omega⟩
  · obtain ⟨-, -, hrefund⟩ := helse hbr
    have := hbase hbr
    exact ⟨_, hrefund, by simp only; omega⟩

/-- C20, witness: a deposit of 50 base and 30 quote into reserves 100 and 100,
which takes the second branch. -/
theorem C20_refund_nonneg_witness :
    0 < poolC3.BaseFund.Amount ∧ 0 < poolC3.QuoteFund.Amount ∧
    0 ≤ (⟨"inj", 50⟩ : Coin).Amount ∧ 0 ≤ (⟨"usdt", 30⟩ : Coin).Amount ∧
    (Deposit maxDecBitLenV045 poolC3 ⟨"inj", 50⟩ ⟨"usdt", 30⟩).panic = none ∧
    ¬ expectedQuote poolC3 ⟨"inj", 50⟩ ≤ (⟨"usdt", 30⟩ : Coin).Amount ∧
    (∃ c : Coin, (Deposit maxDecBitLenV045 poolC3 ⟨"inj", 50⟩ ⟨"usdt", 30⟩).refund = [c] ∧ 0 ≤ c.Amount) ∧
    expectedBase poolC3 ⟨"usdt", 30⟩ ≤ (⟨"inj", 50⟩ : Coin).Amount :=
  ⟨by decide, by decide, by decide, by decide, by decide, by decide,
    (@C20_refund_nonneg maxDecBitLenV045 poolC3 ⟨"inj", 50⟩ ⟨"usdt", 30⟩
      (by decide) (by decide) (by decide) (by decide) (by decide)).1,
    (@C20_refund_nonneg maxDecBitLenV045 poolC3 ⟨"inj", 50⟩ ⟨"usdt", 30⟩
      (by decide) (by decide) (by decide) (by decide) (by decide)).2 (by decide)⟩

/-! ## Facts about `Price` -/

/-- Rounding any multiple of `10^18` gives back the multiplier. -/
theorem chopPrecisionAndRound_mul_any (x : Int) :
    chopPrecisionAndRound (x * precisionReuse) = x := by
  rcases le_or_lt 0 x with hx | hx
  · exact chopPrecisionAndRound_mul x hx
  · have h := chopPrecisionAndRound_mul (-x) (by omega)
    rw [neg_mul, chopPrecisionAndRound_neg] at h
    omega

/-- Rounding does not raise the magnitude above `m` when the argument is at
most `m * 10^18` in magnitude. -/
theorem chopPrecisionAndRound_natAbs_le (x : Int) (m : Nat)
    (h : x.natAbs ≤ m * 1000000000000000000) :
    (chopPrecisionAndRound x).natAbs ≤ m := by
  have key : ∀ y : Int, 0 ≤ y → y.natAbs ≤ m * 1000000000000000000 →
      (chopPrecisionAndRound y).natAbs ≤ m := by
    intro y hy hle
    unfold chopPrecisionAndRound
    rw [if_neg (not_lt.mpr hy)]
    obtain ⟨h0, h1, -⟩ := chopAbs_bounds y hy
    rw [precisionReuse_eq] at h1
    omega
  rcases le_or_lt 0 x with hx | hx
  · exact key x hx h
  · have := key (-x) (by omega) (by omega)
    rw [chopPrecisionAndRound_neg] at this
    omega

/-- Dividing a decimal that fits by a non-zero integer succeeds and does not
raise the magnitude. -/
theorem Quo_int_ok (d : Dec) (x : Int) (hx : x ≠ 0) (hd : d.i.natAbs < 2 ^ maxDecBitLen) :
    ∃ q : Dec, d.Quo maxDecBitLen (NewDecFromInt x) = .ok q ∧ q.i.natAbs ≤ d.i.natAbs ∧
      q.i = chopPrecisionAndRound
        ((d.i * precisionReuse * precisionReuse).tdiv (x * precisionReuse)) := by
  have hP : precisionReuse ≠ 0 := by decide
  have hxP : x * precisionReuse ≠ 0 := mul_ne_zero hx hP
  have hle : (chopPrecisionAndRound
      ((d.i * precisionReuse * precisionReuse).tdiv (x * precisionReuse))).natAbs
      ≤ d.i.natAbs := by
    apply chopPrecisionAndRound_natAbs_le
    rw [Int.natAbs_tdiv, Int.natAbs_mul, Int.natAbs_mul, Int.natAbs_mul]
    have hPn : precisionReuse.natAbs = 1000000000000000000 := rfl
    rw [hPn]
    have hx1 : 1 ≤ x.natAbs := Int.natAbs_pos.mpr hx
    show d.i.natAbs * 1000000000000000000 * 1000000000000000000
      / (x.natAbs * 1000000000000000000) ≤ d.i.natAbs * 1000000000000000000
    rw [Nat.mul_div_mul_right _ _ (by norm_num)]
    calc d.i.natAbs * 1000000000000000000 / x.natAbs
        ≤ d.i.natAbs * 1000000000000000000 / 1 := Nat.div_le_div_left hx1 (by norm_num)
      _ = d.i.natAbs * 1000000000000000000 := Nat.div_one _
  refine ⟨⟨chopPrecisionAndRound
    ((d.i * precisionReuse * precisionReuse).tdiv (x * precisionReuse))⟩, ?_, hle, rfl⟩
  unfold Dec.Quo NewDecFromInt
  simp only
  rw [if_neg hxP]
  have : bitLenExceeds (chopPrecisionAndRound
      ((d.i * precisionReuse * precisionReuse).tdiv (x * precisionReuse))) maxDecBitLen
      = false := by
    unfold bitLenExceeds
    simp only [decide_eq_false_iff_not, not_le]
    omega
  rw [this]
  simp

/-- The rounded quotient `c` of the scaled integers `N >= 0` and `D > 0`
differs from `N * 10^18 / D` by at most one half, up to the truncation. -/
theorem quoRound_bounds (N D : Int) (hN : 0 ≤ N) (hD : 0 < D) :
    0 ≤ chopPrecisionAndRound ((N * precisionReuse * precisionReuse).tdiv D) ∧
    2 * (chopPrecisionAndRound ((N * precisionReuse * precisionReuse).tdiv D) * D
      - N * precisionReuse) ≤ D ∧
    2 * (N * precisionReuse
      - chopPrecisionAndRound ((N * precisionReuse * precisionReuse).tdiv D) * D)
        * precisionReuse < D * (precisionReuse + 2) := by
  have hP : (0 : Int) < precisionReuse := by decide
  have hX : 0 ≤ N * precisionReuse * precisionReuse := by positivity
  set X := N * precisionReuse * precisionReuse with hXdef
  rw [Int.tdiv_eq_ediv hX (le_of_lt hD)]
  have ht0 : 0 ≤ X / D := Int.ediv_nonneg hX (le_of_lt hD)
  have ht1 : X / D * D ≤ X := Int.ediv_mul_le X (ne_of_gt hD)
  have ht2 : X < (X / D + 1) * D := Int.lt_ediv_add_one_mul_self X hD
  obtain ⟨hc0, hc1, hc2⟩ := chopAbs_bounds (X / D) ht0
  have hc : chopPrecisionAndRound (X / D) = chopPrecisionAndRoundAbs (X / D) := by
    unfold chopPrecisionAndRound
    rw [if_neg (not_lt.mpr ht0)]
  rw [hc]
  set t := X / D
  set c := chopPrecisionAndRoundAbs t
  refine ⟨hc0, ?_, ?_⟩
  · have h1 : 2 * (c * precisionReuse) * D ≤ (2 * t + precisionReuse) * D :=
      mul_le_mul_of_nonneg_right hc1 (le_of_lt hD)
    have h2 : (2 * (c * D - N * precisionReuse)) * precisionReuse ≤ D * precisionReuse := by
      have : X = N * precisionReuse * precisionReuse := rfl
      nlinarith
    exact le_of_mul_le_mul_right h2 hP
  · have h1 : 2 * t * D ≤ (2 * (c * precisionReuse) + precisionReuse) * D :=
      mul_le_mul_of_nonneg_right hc2 (le_of_lt hD)
    have : X = N * precisionReuse * precisionReuse := rfl
    nlinarith

/-- Rounded quotient of an exact multiple. -/
theorem quoRound_exact (N D j : Int) (hN : 0 ≤ N) (hD : 0 < D)
    (hj : N * precisionReuse = j * D) :
    chopPrecisionAndRound ((N * precisionReuse * precisionReuse).tdiv D) = j := by
  obtain ⟨-, h1, h2⟩ := quoRound_bounds N D hN hD
  set c := chopPrecisionAndRound ((N * precisionReuse * precisionReuse).tdiv D)
  rw [hj] at h1 h2
  rw [precisionReuse_eq] at h2
  have h3 : 2 * (c - j) * D ≤ 1 * D := by linarith
  have h4 : 2 * (c - j) ≤ 1 := le_of_mul_le_mul_right h3 hD
  have h5 : (2 * (j - c) * 1000000000000000000) * D < 1000000000000000002 * D := by
    linarith
  have h6 : 2 * (j - c) * 1000000000000000000 < 1000000000000000002 :=
    lt_of_mul_lt_mul_right h5 (le_of_lt hD)
  omega

/-- Combination of two rounded divisions, by `qd` and then by `B`. -/
theorem two_step_error (M s2 s3 qd B : Int) (hqd : 0 < qd) (hB : 0 < B)
    (h2a : 2 * (s2 * qd - M) ≤ qd)
    (h2b : 2 * (M - s2 * qd) * 1000000000000000000 < qd * 1000000000000000002)
    (h3a : 2 * (s3 * B - s2) ≤ B)
    (h3b : 2 * (s2 - s3 * B) * 1000000000000000000 < B * 1000000000000000002) :
    |s3 * (qd * B) - M| < qd * B := by
  have e : s3 * (qd * B) - M = (s3 * B - s2) * qd + (s2 * qd - M) := by ring
  rw [e, abs_lt]
  set a := s3 * B - s2
  set b := s2 * qd - M
  have hb' : 2 * (-b) * 1000000000000000000 < qd * 1000000000000000002 := by
    have : M - s2 * qd = -b := by ring
    rw [this] at h2b; exact h2b
  have ha' : 2 * (-a) * 1000000000000000000 < B * 1000000000000000002 := by
    have : s2 - s3 * B = -a := by ring
    rw [this] at h3b; exact h3b
  rcases eq_or_lt_of_le (show 1 ≤ B by omega) with hB1 | hB2
  · have ha0 : a = 0 := by omega
    rw [ha0, ← hB1]
    constructor <;> omega
  · have hBq : 2 * qd ≤ qd * B := by nlinarith
    have h1 : 2 * a * qd ≤ B * qd := mul_le_mul_of_nonneg_right h3a (le_of_lt hqd)
    have h2 : (2 * (-a) * 1000000000000000000) * qd < (B * 1000000000000000002) * qd :=
      mul_lt_mul_of_pos_right ha' hqd
    constructor
    · nlinarith
    · nlinarith

/-- The fields of a pool that `NewPool` returned. -/
theorem NewPool_ok_fields {bf qf : Coin} {bd qd k : Int} {p : Pool}
    (hp : NewPool bf qf bd qd k = .ok p) :
    p.BaseDecimal = 10 ^ bd.toNat ∧ p.QuoteDecimal = 10 ^ qd.toNat ∧
    p.BaseFund = bf ∧ p.QuoteFund = qf ∧ p.Constant = k := by
  rw [NewPool_eq] at hp
  split at hp
  · simp only [Except.ok.injEq] at hp
    subst hp
    exact ⟨rfl, rfl, rfl, rfl, rfl⟩
  · simp at hp

/-- The stored ratio `r` of positive reserves `B`, `Q` is `B * 10^18 / Q` up to
rounding: `2 * (r * Q - B * 10^18) <= Q` and
`2 * (B * 10^18 - r * Q) * 10^18 < Q * (10^18 + 2)`. -/
theorem currentRatio_bounds (p : Pool) (hB : 0 ≤ p.BaseFund.Amount) (hQ : 0 < p.QuoteFund.Amount) :
    2 * (currentRatio p * p.QuoteFund.Amount - p.BaseFund.Amount * precisionReuse)
      ≤ p.QuoteFund.Amount ∧
    2 * (p.BaseFund.Amount * precisionReuse - currentRatio p * p.QuoteFund.Amount)
      * precisionReuse < p.QuoteFund.Amount * (precisionReuse + 2) := by
  have hP : (0 : Int) < precisionReuse := by decide
  obtain ⟨-, h1, h2⟩ := quoRound_bounds (p.BaseFund.Amount * precisionReuse)
    (p.QuoteFund.Amount * precisionReuse) (mul_nonneg hB (le_of_lt hP)) (mul_pos hQ hP)
  have hr : chopPrecisionAndRound
      ((p.BaseFund.Amount * precisionReuse * precisionReuse * precisionReuse).tdiv
        (p.QuoteFund.Amount * precisionReuse)) = currentRatio p := rfl
  rw [hr] at h1 h2
  constructor
  · have : (2 * (currentRatio p * p.QuoteFund.Amount - p.BaseFund.Amount * precisionReuse))
        * precisionReuse ≤ p.QuoteFund.Amount * precisionReuse := by linarith
    exact le_of_mul_le_mul_right this hP
  · have : (2 * (p.BaseFund.Amount * precisionReuse - currentRatio p * p.QuoteFund.Amount)
        * precisionReuse) * precisionReuse
        < (p.QuoteFund.Amount * (precisionReuse + 2)) * precisionReuse := by linarith
    exact lt_of_mul_lt_mul_right this (le_of_lt hP)

/-- Distance of `expectedQuote` from the proportional amount, with the
rounding term of the stored ratio. -/
theorem expectedQuote_near (p : Pool) (bf : Coin)
    (hB : 0 < p.BaseFund.Amount) (hQ : 0 < p.QuoteFund.Amount) (hbf : 0 ≤ bf.Amount)
    (hr : 0 < currentRatio p) :
    |expectedQuote p bf * p.BaseFund.Amount - p.QuoteFund.Amount * bf.Amount| * 10 ^ 18
      < p.BaseFund.Amount * 10 ^ 18 + (expectedQuote p bf + 1) * p.QuoteFund.Amount := by
  obtain ⟨hE1, hE2⟩ := currentRatio_bounds p (le_of_lt hB) hQ
  obtain ⟨hy0, h1, h2⟩ := expectedQuote_bounds p bf hr hbf
  set y := expectedQuote p bf
  set r := currentRatio p
  set B := p.BaseFund.Amount
  set Q := p.QuoteFund.Amount
  have e18 : (10 : Int) ^ 18 = 1000000000000000000 := by norm_num
  rw [e18]
  rw [precisionReuse_eq] at hE1 hE2 h1 h2
  -- the error of the stored ratio
  obtain ⟨E, hE⟩ : ∃ E, E = r * Q - B * 1000000000000000000 := ⟨_, rfl⟩
  have hrQ : r * Q = B * 1000000000000000000 + E := by rw [hE]; ring
  have hE1' : 2 * E ≤ Q := by rw [hE]; exact hE1
  have hE2' : 2 * (-E) * 1000000000000000000 < Q * 1000000000000000002 := by
    have : B * 1000000000000000000 - r * Q = -E := by rw [hE]; ring
    rw [this] at hE2
    linarith
  have hyQ : 0 ≤ y * Q := mul_nonneg hy0 (le_of_lt hQ)
  -- lower side
  have h3 : bf.Amount * 1000000000000000000 * Q < (y + 1) * r * Q :=
    mul_lt_mul_of_pos_right h1 hQ
  have h4 : (y + 1) * r * Q = (y + 1) * (B * 1000000000000000000) + (y + 1) * E := by
    rw [mul_assoc, hrQ]; ring
  have h5 : 2 * ((y + 1) * E) ≤ (y + 1) * Q := by
    have := mul_le_mul_of_nonneg_left hE1' (show 0 ≤ y + 1 by omega)
    linarith
  -- upper side
  have h6 : 2 * 1000000000000000000 * (y * r - bf.Amount * 1000000000000000000) * Q ≤ r * Q :=
    mul_le_mul_of_nonneg_right h2 (le_of_lt hQ)
  have h7 : 2 * 1000000000000000000 * (y * r - bf.Amount * 1000000000000000000) * Q
      = 2 * 1000000000000000000 * (y * (B * 1000000000000000000) + y * E
          - bf.Amount * 1000000000000000000 * Q) := by
    have : y * r * Q = y * (r * Q) := by ring
    calc 2 * 1000000000000000000 * (y * r - bf.Amount * 1000000000000000000) * Q
        = 2 * 1000000000000000000 * (y * (r * Q) - bf.Amount * 1000000000000000000 * Q) := by
          ring
      _ = _ := by rw [hrQ]; ring
  have h8 : 2 * (-E) * 1000000000000000000 * y ≤ Q * 1000000000000000002 * y :=
    mul_le_mul_of_nonneg_right (le_of_lt hE2') hy0
  have h8' : 2 * 1000000000000000000 * (-(y * E)) ≤ 1000000000000000002 * (y * Q) := by
    linarith
  have hcomm : Q * bf.Amount = bf.Amount * Q := mul_comm _ _
  have hyE : y * E + E = (y + 1) * E := by ring
  have hyQ1 : (y + 1) * Q = y * Q + Q := by ring
  have hlo : -(B * 1000000000000000000 + (y + 1) * Q)
      < (y * B - Q * bf.Amount) * 1000000000000000000 := by
    rw [h4] at h3
    nlinarith
  have hhi : (y * B - Q * bf.Amount) * 1000000000000000000
      < B * 1000000000000000000 + (y + 1) * Q := by
    rw [h7, hrQ] at h6
    nlinarith
  have habs : |y * B - Q * bf.Amount| * 1000000000000000000
      = |(y * B - Q * bf.Amount) * 1000000000000000000| := by
    rw [abs_mul, abs_of_pos (show (0 : Int) < 1000000000000000000 by norm_num)]
  rw [habs, abs_lt]
  exact ⟨hlo, hhi⟩

/-! ## C4: drift of the reserve ratio under `Deposit` -/

/-- C4, counterexample: depositing 30 base and `2 * 10^19` quote into a pool
with reserves 3 and `2 * 10^18` succeeds with reserves 33 and `17 * 10^18`, and
`Q * B' - Q' * B = 15 * 10^18` exceeds `max(B, Q) = 2 * 10^18`. -/
theorem C4_deposit_ratio_drifts :
    0 < poolC4.BaseFund.Amount ∧ 0 < poolC4.QuoteFund.Amount ∧
    (Deposit maxDecBitLenV045 poolC4 ⟨"inj", 30⟩ ⟨"usdt", 20000000000000000000⟩).panic = none ∧
    (Deposit maxDecBitLenV045 poolC4 ⟨"inj", 30⟩ ⟨"usdt", 20000000000000000000⟩).pool.BaseFund.Amount = 33 ∧
    (Deposit maxDecBitLenV045 poolC4 ⟨"inj", 30⟩ ⟨"usdt", 20000000000000000000⟩).pool.QuoteFund.Amount
      = 17000000000000000000 ∧
    max poolC4.BaseFund.Amount poolC4.QuoteFund.Amount <
      poolC4.QuoteFund.Amount *
          (Deposit maxDecBitLenV045 poolC4 ⟨"inj", 30⟩ ⟨"usdt", 20000000000000000000⟩).pool.BaseFund.Amount
        - (Deposit maxDecBitLenV045 poolC4 ⟨"inj", 30⟩ ⟨"usdt", 20000000000000000000⟩).pool.QuoteFund.Amount *
          poolC4.BaseFund.Amount := by
  decide

/-- C4, amended: for a `Deposit` that does not stop, of a non-negative base
amount into a pool with positive reserves `B`, `Q`, and that takes the first
branch (`expectedQuote <= quoteFunds.amount`), the reserves after (`B'`, `Q'`)
satisfy `|Q' * B - Q * B'| < B + (Q' - Q + 1) * Q / 10^18`: one truncation unit
of the base side plus the rounding of the ratio at 18 decimals. Hence
`|Q' * B - Q * B'| <= B <= max(B, Q)` whenever `(Q' - Q + 1) * Q <= 10^18`, and
`|Q' * B - Q * B'| < B` whenever the ratio is stored exactly (`Q` divides
`B * 10^18`). -/
theorem C4_deposit_ratio_within_rounding (p : Pool) (bf qf : Coin)
    (hB : 0 < p.BaseFund.Amount) (hQ : 0 < p.QuoteFund.Amount) (hbf : 0 ≤ bf.Amount)
    (hbranch : expectedQuote p bf ≤ qf.Amount)
    (h : (Deposit maxDecBitLen p bf qf).panic = none) :
    |(Deposit maxDecBitLen p bf qf).pool.QuoteFund.Amount * p.BaseFund.Amount
        - p.QuoteFund.Amount * (Deposit maxDecBitLen p bf qf).pool.BaseFund.Amount| * 10 ^ 18
      < p.BaseFund.Amount * 10 ^ 18
        + ((Deposit maxDecBitLen p bf qf).pool.QuoteFund.Amount - p.QuoteFund.Amount + 1)
          * p.QuoteFund.Amount ∧
    (((Deposit maxDecBitLen p bf qf).pool.QuoteFund.Amount - p.QuoteFund.Amount + 1)
        * p.QuoteFund.Amount ≤ 10 ^ 18 →
      |(Deposit maxDecBitLen p bf qf).pool.QuoteFund.Amount * p.BaseFund.Amount
          - p.QuoteFund.Amount * (Deposit maxDecBitLen p bf qf).pool.BaseFund.Amount|
        ≤ p.BaseFund.Amount ∧
      |(Deposit maxDecBitLen p bf qf).pool.QuoteFund.Amount * p.BaseFund.Amount
          - p.QuoteFund.Amount * (Deposit maxDecBitLen p bf qf).pool.BaseFund.Amount|
        ≤ max p.BaseFund.Amount p.QuoteFund.Amount) ∧
    (p.QuoteFund.Amount ∣ p.BaseFund.Amount * 10 ^ 18 →
      |(Deposit maxDecBitLen p bf qf).pool.QuoteFund.Amount * p.BaseFund.Amount
          - p.QuoteFund.Amount * (Deposit maxDecBitLen p bf qf).pool.BaseFund.Amount|
        < p.BaseFund.Amount ∧
      |(Deposit maxDecBitLen p bf qf).pool.QuoteFund.Amount * p.BaseFund.Amount
          - p.QuoteFund.Amount * (Deposit maxDecBitLen p bf qf).pool.BaseFund.Amount|
        ≤ max p.BaseFund.Amount p.QuoteFund.Amount) := by
  obtain ⟨-, hr, hthen, -⟩ := Deposit_ok p bf qf h
  obtain ⟨-, hpool, -⟩ := hthen hbranch
  have hr0 : 0 < currentRatio p :=
    lt_of_le_of_ne (currentRatio_nonneg p (le_of_lt hB) (le_of_lt hQ)) (Ne.symm hr)
  have hnear := expectedQuote_near p bf hB hQ hbf hr0
  have e : (Deposit maxDecBitLen p bf qf).pool.QuoteFund.Amount * p.BaseFund.Amount
      - p.QuoteFund.Amount * (Deposit maxDecBitLen p bf qf).pool.BaseFund.Amount
      = expectedQuote p bf * p.BaseFund.Amount - p.QuoteFund.Amount * bf.Amount := by
    rw [hpool]; simp only; ring
  have ey : (Deposit maxDecBitLen p bf qf).pool.QuoteFund.Amount - p.QuoteFund.Amount
      = expectedQuote p bf := by
    rw [hpool]; simp only; ring
  rw [e, ey]
  refine ⟨hnear, fun hsmall => ?_, fun hex => ?_⟩
  · have h1 : |expectedQuote p bf * p.BaseFund.Amount - p.QuoteFund.Amount * bf.Amount|
        ≤ p.BaseFund.Amount := by
      have e18 : (10 : Int) ^ 18 = 1000000000000000000 := by norm_num
      rw [e18] at hnear hsmall
      omega
    exact ⟨h1, le_trans h1 (le_max_left _ _)⟩
  · have h1 := expectedQuote_exact_near p bf hB hQ hbf hex
    rw [mul_comm bf.Amount p.QuoteFund.Amount] at h1
    exact ⟨h1, le_trans (le_of_lt h1) (le_max_left _ _)⟩

/-- C4, witness: 100 inj and 1000 usdt deposited into the pool of `main` after
its first `Buy`, whose ratio is not stored exactly. -/
theorem C4_deposit_ratio_within_rounding_witness :
    0 < poolAfterBuy.BaseFund.Amount ∧ 0 < poolAfterBuy.QuoteFund.Amount ∧
    0 ≤ depositBase.Amount ∧
    expectedQuote poolAfterBuy depositBase ≤ depositQuote.Amount ∧
    (Deposit maxDecBitLenV045 poolAfterBuy depositBase depositQuote).panic = none ∧
    ((Deposit maxDecBitLenV045 poolAfterBuy depositBase depositQuote).pool.QuoteFund.Amount
        - poolAfterBuy.QuoteFund.Amount + 1) * poolAfterBuy.QuoteFund.Amount ≤ 10 ^ 18 ∧
    ¬ poolAfterBuy.QuoteFund.Amount ∣ poolAfterBuy.BaseFund.Amount * 10 ^ 18 ∧
    |(Deposit maxDecBitLenV045 poolAfterBuy depositBase depositQuote).pool.QuoteFund.Amount
          * poolAfterBuy.BaseFund.Amount
        - poolAfterBuy.QuoteFund.Amount
          * (Deposit maxDecBitLenV045 poolAfterBuy depositBase depositQuote).pool.BaseFund.Amount|
      ≤ poolAfterBuy.BaseFund.Amount ∧
    |(Deposit maxDecBitLenV045 poolAfterBuy depositBase depositQuote).pool.QuoteFund.Amount
          * poolAfterBuy.BaseFund.Amount
        - poolAfterBuy.QuoteFund.Amount
          * (Deposit maxDecBitLenV045 poolAfterBuy depositBase depositQuote).pool.BaseFund.Amount|
      ≤ max poolAfterBuy.BaseFund.Amount poolAfterBuy.QuoteFund.Amount :=
  ⟨by decide, by decide, by decide, by decide, by decide, by decide, by decide,
    ((@C4_deposit_ratio_within_rounding maxDecBitLenV045 poolAfterBuy depositBase depositQuote
      (by decide) (by decide) (by decide) (by decide) (by decide)).2.1 (by decide)).1,
    ((@C4_deposit_ratio_within_rounding maxDecBitLenV045 poolAfterBuy depositBase depositQuote
      (by decide) (by decide) (by decide) (by decide) (by decide)).2.1 (by decide)).2⟩

/-! ## C9: state after a call that stops -/

/-- C9, the code at the failing input: on a pool of 100 inj and 100 usdt, a
`Sell` of 10 usdt by an account that holds 50 usdt and has no inj entry passes
the denom and funds tests, credits the usdt balance (50 becomes 60) and then
stops on the nil inj entry; the pool is unchanged but the credit stays. -/
theorem C9_sell_stops_after_credit :
    askQuote.Denom = poolC3.QuoteFund.Denom ∧
    accountQuoteOnly.DenomToFund "usdt" = some ⟨"usdt", 50⟩ ∧
    askQuote.Amount ≤ 50 ∧
    accountQuoteOnly.DenomToFund "inj" = none ∧
    (Sell maxDecBitLenV045 poolC3 askQuote accountQuoteOnly).panic = some .nilPointer ∧
    (Sell maxDecBitLenV045 poolC3 askQuote accountQuoteOnly).pool = poolC3 ∧
    (Sell maxDecBitLenV045 poolC3 askQuote accountQuoteOnly).account.DenomToFund "usdt"
      = some ⟨"usdt", 60⟩ ∧
    (Sell maxDecBitLenV045 poolC3 askQuote accountQuoteOnly).account.DenomToFund "usdt"
      ≠ accountQuoteOnly.DenomToFund "usdt" := by
  decide

/-! ## C11: positivity of the reserves -/

/-- C11, counterexample: on a pool with reserves 1 and 1 and `k = 1` a `Buy`
of one quote unit succeeds and leaves a base reserve of 0. -/
theorem C11_buy_empties_base_reserve :
    0 < poolC11.BaseFund.Amount ∧ 0 < poolC11.QuoteFund.Amount ∧ 0 < poolC11.Constant ∧
    0 ≤ bidC10.Amount ∧
    (Buy maxDecBitLenV045 poolC11 bidC10 accountC12).panic = none ∧
    (Buy maxDecBitLenV045 poolC11 bidC10 accountC12).pool.BaseFund.Amount = 0 ∧
    ¬ 0 < (Buy maxDecBitLenV045 poolC11 bidC10 accountC12).pool.BaseFund.Amount := by
  decide

/-- C11, amended: on a pool with positive reserves and `k > 0`, a `Deposit` of
non-negative funds that does not stop leaves both reserves positive; a `Buy`
of a non-negative amount that does not stop leaves the quote reserve positive
and the base reserve non-negative, and positive whenever the new quote
reserve is at most `k`. -/
theorem C11_reserves_stay_nonneg (p : Pool) (bf qf bid : Coin) (a : Account)
    (hB : 0 < p.BaseFund.Amount) (hQ : 0 < p.QuoteFund.Amount) (hk : 0 < p.Constant) :
    (0 ≤ bf.Amount → 0 ≤ qf.Amount → (Deposit maxDecBitLen p bf qf).panic = none →
      0 < (Deposit maxDecBitLen p bf qf).pool.BaseFund.Amount ∧
      0 < (Deposit maxDecBitLen p bf qf).pool.QuoteFund.Amount) ∧
    (0 ≤ bid.Amount → (Buy maxDecBitLen p bid a).panic = none →
      0 < (Buy maxDecBitLen p bid a).pool.QuoteFund.Amount ∧
      0 ≤ (Buy maxDecBitLen p bid a).pool.BaseFund.Amount ∧
      ((Buy maxDecBitLen p bid a).pool.QuoteFund.Amount ≤ p.Constant →
        0 < (Buy maxDecBitLen p bid a).pool.BaseFund.Amount)) := by
  have hP : (0 : Int) < precisionReuse := by decide
  refine ⟨fun h1 h2 h => ?_, fun h1 h => ?_⟩
  · obtain ⟨-, hr, hthen, helse⟩ := Deposit_ok p bf qf h
    have hr0 : 0 < currentRatio p :=
      lt_of_le_of_ne (currentRatio_nonneg p (le_of_lt hB) (le_of_lt hQ)) (Ne.symm hr)
    by_cases hbr : expectedQuote p bf ≤ qf.Amount
    · obtain ⟨-, hpool, -⟩ := hthen hbr
      have hy : 0 ≤ expectedQuote p bf :=
        (quoTrunc_bounds (bf.Amount * precisionReuse) (currentRatio p)
          (mul_nonneg h1 (le_of_lt hP)) hr0).1
      rw [hpool]
      simp only
      constructor <;> omega
    · obtain ⟨-, hpool, -⟩ := helse hbr
      rw [hpool]
      simp only
      constructor <;> omega
  · obtain ⟨_, _, _, -, -, -, -, -, -, hpool, -⟩ := Buy_ok p bid a h
    obtain ⟨hy0, hy1⟩ := quoTrunc_scaled_pos p.Constant (p.QuoteFund.Amount + bid.Amount)
      (le_of_lt hk) (by omega)
    rw [hpool]
    simp only [buyBase]
    exact ⟨by omega, hy0, hy1⟩

/-- C11, witness: a deposit and the first `Buy` of `main` on the pool of `main`. -/
theorem C11_reserves_stay_nonneg_witness :
    0 < poolMain.BaseFund.Amount ∧ 0 < poolMain.QuoteFund.Amount ∧ 0 < poolMain.Constant ∧
    0 ≤ depositBase.Amount ∧ 0 ≤ depositQuote.Amount ∧
    (Deposit maxDecBitLenV045 poolMain depositBase depositQuote).panic = none ∧
    0 ≤ bidMain.Amount ∧ (Buy maxDecBitLenV045 poolMain bidMain accountMain).panic = none ∧
    (Buy maxDecBitLenV045 poolMain bidMain accountMain).pool.QuoteFund.Amount
      ≤ poolMain.Constant ∧
    0 < (Deposit maxDecBitLenV045 poolMain depositBase depositQuote).pool.BaseFund.Amount ∧
    0 < (Deposit maxDecBitLenV045 poolMain depositBase depositQuote).pool.QuoteFund.Amount ∧
    0 < (Buy maxDecBitLenV045 poolMain bidMain accountMain).pool.QuoteFund.Amount ∧
    0 < (Buy maxDecBitLenV045 poolMain bidMain accountMain).pool.BaseFund.Amount :=
  ⟨by decide, by decide, by decide, by decide, by decide, by decide, by decide, by decide,
    by decide,
    ((@C11_reserves_stay_nonneg maxDecBitLenV045 poolMain depositBase depositQuote bidMain
      accountMain (by decide) (by decide) (by decide)).1 (by decide) (by decide)
      (by decide)).1,
    ((@C11_reserves_stay_nonneg maxDecBitLenV045 poolMain depositBase depositQuote bidMain
      accountMain (by decide) (by decide) (by decide)).1 (by decide) (by decide)
      (by decide)).2,
    ((@C11_reserves_stay_nonneg maxDecBitLenV045 poolMain depositBase depositQuote bidMain
      accountMain (by decide) (by decide) (by decide)).2 (by decide) (by decide)).1,
    ((@C11_reserves_stay_nonneg maxDecBitLenV045 poolMain depositBase depositQuote bidMain
      accountMain (by decide) (by decide) (by decide)).2 (by decide) (by decide)).2.2
      (by decide)⟩

/-! ## C12: sign of the account balances -/

/-- C12, counterexample: on a pool with reserves 1 and 1 and `k = 100`, a `Buy`
of one quote unit by an account holding 10 base units succeeds and leaves a
base balance of -39. -/
theorem C12_buy_drives_balance_negative :
    0 < poolC10.BaseFund.Amount ∧ 0 < poolC10.QuoteFund.Amount ∧ 0 ≤ bidC10.Amount ∧
    accountC12.DenomToFund "inj" = some ⟨"inj", 10⟩ ∧
    accountC12.DenomToFund "usdt" = some ⟨"usdt", 5⟩ ∧
    (Buy maxDecBitLenV045 poolC10 bidC10 accountC12).panic = none ∧
    (Buy maxDecBitLenV045 poolC10 bidC10 accountC12).account.DenomToFund "inj"
      = some ⟨"inj", -39⟩ := by
  decide

/-- C12, amended: for an account whose balances are all non-negative, after a
`Buy` of a non-negative amount that does not stop and whose new base reserve
does not exceed the current one (`sentBase >= 0`), every balance of the
account is still non-negative. The new base reserve does not exceed the
current one whenever the reserves are positive and `k` is at most the base
reserve times the new quote reserve. -/
theorem C12_buy_keeps_balances_nonneg (p : Pool) (bid : Coin) (a : Account)
    (hbid : 0 ≤ bid.Amount)
    (hacc : ∀ d c, a.DenomToFund d = some c → 0 ≤ c.Amount)
    (h : (Buy maxDecBitLen p bid a).panic = none) :
    ((Buy maxDecBitLen p bid a).pool.BaseFund.Amount ≤ p.BaseFund.Amount →
      ∀ d c, (Buy maxDecBitLen p bid a).account.DenomToFund d = some c → 0 ≤ c.Amount) ∧
    (0 < p.BaseFund.Amount → 0 < p.QuoteFund.Amount →
      p.Constant ≤ p.BaseFund.Amount * (Buy maxDecBitLen p bid a).pool.QuoteFund.Amount →
      (Buy maxDecBitLen p bid a).pool.BaseFund.Amount ≤ p.BaseFund.Amount) := by
  obtain ⟨held, baseHeld, quoteHeld, -, hheld, hle, -, hbase, hqh, hpool, hacc'⟩ :=
    Buy_ok p bid a h
  have hb : (Buy maxDecBitLen p bid a).pool.BaseFund.Amount = buyBase p bid := by rw [hpool]
  have hq : (Buy maxDecBitLen p bid a).pool.QuoteFund.Amount
      = p.QuoteFund.Amount + bid.Amount := by rw [hpool]
  rw [hb, hq]
  constructor
  · intro hy
    have hbh : 0 ≤ baseHeld.Amount := hacc _ _ hbase
    have hh : 0 ≤ held.Amount := hacc _ _ hheld
    have hqh0 : bid.Amount ≤ quoteHeld.Amount := by
      rw [setAmount_lookup] at hqh
      by_cases hd : p.QuoteFund.Denom = p.BaseFund.Denom
      · rw [if_pos hd, hheld] at hqh
        simp only [Option.map_some'] at hqh
        have := Option.some.inj hqh
        rw [← this]
        simp only
        rw [hd, hbase] at hheld
        have := Option.some.inj hheld
        rw [this]
        omega
      · rw [if_neg hd, hheld] at hqh
        have := Option.some.inj hqh
        rw [← this]
        exact hle
    intro d c hc
    rw [hacc', setAmount_lookup] at hc
    by_cases hdq : d = p.QuoteFund.Denom
    · rw [if_pos hdq, hdq, hqh] at hc
      simp only [Option.map_some'] at hc
      have := Option.some.inj hc
      rw [← this]
      simp only
      omega
    · rw [if_neg hdq, setAmount_lookup] at hc
      by_cases hdb : d = p.BaseFund.Denom
      · rw [if_pos hdb, hdb, hbase] at hc
        simp only [Option.map_some'] at hc
        have := Option.some.inj hc
        rw [← this]
        simp only
        omega
      · rw [if_neg hdb] at hc
        exact hacc d c hc
  · intro hB hQ hk
    exact quoTrunc_scaled_le _ _ _ (by omega) (le_of_lt hB) hk

/-- C12, witness: the second `Buy` of `main`, on the pool and the account that
the first `Buy` left, where the product of the reserves is below `k`. -/
theorem C12_buy_keeps_balances_nonneg_witness :
    0 ≤ bidMain.Amount ∧
    (∀ d c, accountAfterBuy.DenomToFund d = some c → 0 ≤ c.Amount) ∧
    (Buy maxDecBitLenV045 poolAfterBuy bidMain accountAfterBuy).panic = none ∧
    poolAfterBuy.BaseFund.Amount * poolAfterBuy.QuoteFund.Amount < poolAfterBuy.Constant ∧
    0 < poolAfterBuy.BaseFund.Amount ∧ 0 < poolAfterBuy.QuoteFund.Amount ∧
    poolAfterBuy.Constant ≤ poolAfterBuy.BaseFund.Amount
      * (Buy maxDecBitLenV045 poolAfterBuy bidMain accountAfterBuy).pool.QuoteFund.Amount ∧
    (Buy maxDecBitLenV045 poolAfterBuy bidMain accountAfterBuy).pool.BaseFund.Amount
      ≤ poolAfterBuy.BaseFund.Amount ∧
    (∀ d c, (Buy maxDecBitLenV045 poolAfterBuy bidMain accountAfterBuy).account.DenomToFund d
      = some c → 0 ≤ c.Amount) :=
  ⟨by decide,
    (@C12_buy_keeps_balances_nonneg maxDecBitLenV045 poolMain bidMain accountMain
      (by decide) accountMain_nonneg (by decide)).1 (by decide),
    by decide, by decide, by decide, by decide, by decide,
    (@C12_buy_keeps_balances_nonneg maxDecBitLenV045 poolAfterBuy bidMain accountAfterBuy
      (by decide)
      ((@C12_buy_keeps_balances_nonneg maxDecBitLenV045 poolMain bidMain accountMain
        (by decide) accountMain_nonneg (by decide)).1 (by decide))
      (by decide)).2 (by decide) (by decide) (by decide),
    (@C12_buy_keeps_balances_nonneg maxDecBitLenV045 poolAfterBuy bidMain accountAfterBuy
      (by decide)
      ((@C12_buy_keeps_balances_nonneg maxDecBitLenV045 poolMain bidMain accountMain
        (by decide) accountMain_nonneg (by decide)).1 (by decide))
      (by decide)).1 (by decide)⟩

/-! ## `Price` in closed form -/

/-- `Price` never changes the pool. -/
theorem Price_pool (p : Pool) : (Price maxDecBitLen p).pool = p := by
  unfold Price
  repeat' split
  all_goals rfl

/-- `Price` on a pool whose quote scale is not zero, in closed form. -/
theorem Price_eq (p : Pool) (hqd : p.QuoteDecimal ≠ 0) :
    (Price maxDecBitLen p).value =
      if 2 ^ maxDecBitLen ≤ (p.QuoteFund.Amount * p.BaseDecimal * precisionReuse).natAbs then
        .error .intOverflow
      else if p.BaseFund.Amount = 0 then .error .divisionByZero
      else .ok ⟨chopPrecisionAndRound
        ((chopPrecisionAndRound
            ((p.QuoteFund.Amount * p.BaseDecimal * precisionReuse * precisionReuse
              * precisionReuse).tdiv (p.QuoteDecimal * precisionReuse))
          * precisionReuse * precisionReuse).tdiv (p.BaseFund.Amount * precisionReuse))⟩ := by
  have hP : precisionReuse ≠ 0 := by decide
  have hmul : chopPrecisionAndRound
      ((NewDecFromInt p.QuoteFund.Amount).i * (NewDecFromInt p.BaseDecimal).i)
      = p.QuoteFund.Amount * p.BaseDecimal * precisionReuse := by
    unfold NewDecFromInt
    simp only
    rw [show p.QuoteFund.Amount * precisionReuse * (p.BaseDecimal * precisionReuse)
      = (p.QuoteFund.Amount * p.BaseDecimal * precisionReuse) * precisionReuse by ring]
    exact chopPrecisionAndRound_mul_any _
  unfold Price Dec.Mul
  simp only [hmul]
  by_cases hov : 2 ^ maxDecBitLen ≤ (p.QuoteFund.Amount * p.BaseDecimal * precisionReuse).natAbs
  · rw [if_pos hov]
    have : bitLenExceeds (p.QuoteFund.Amount * p.BaseDecimal * precisionReuse) maxDecBitLen
        = true := by
      unfold bitLenExceeds
      simp only [decide_eq_true_eq]
      exact hov
    rw [this]
    simp
  · rw [if_neg hov]
    have : bitLenExceeds (p.QuoteFund.Amount * p.BaseDecimal * precisionReuse) maxDecBitLen
        = false := by
      unfold bitLenExceeds
      simp only [decide_eq_false_iff_not]
      exact hov
    rw [this]
    simp only [Bool.false_eq_true, if_false]
    obtain ⟨q, hq, hqle, hqi⟩ := @Quo_int_ok maxDecBitLen
      ⟨p.QuoteFund.Amount * p.BaseDecimal * precisionReuse⟩
      p.QuoteDecimal hqd (by simpa using hov)
    rw [hq]
    simp only
    by_cases hB : p.BaseFund.Amount = 0
    · rw [if_pos hB]
      unfold Dec.Quo NewDecFromInt
      simp [hB]
    · rw [if_neg hB]
      obtain ⟨q2, hq2, -, hq2i⟩ := @Quo_int_ok maxDecBitLen q
        p.BaseFund.Amount hB (lt_of_le_of_lt hqle (by simpa using hov))
      rw [hq2]
      congr 1
      rw [show q2 = ⟨q2.i⟩ from rfl, hq2i, hqi]

/-! ## C17: when `Price` stops -/

/-- C17, counterexample: the pool that `NewPool` builds with 18 and 6 decimals
from 5 base units and `10^76` quote units has a non-zero base reserve, yet
`Price` stops on it, with the integer-overflow error: the scaled product
`10^112` needs 373 bits, above the bound of 315 bits of cosmos-sdk v0.45 and
above every bound of at most 372 bits. -/
theorem C17_price_overflows_on_nonzero_base :
    NewPool ⟨"inj", 5⟩
      ⟨"usdt", 10000000000000000000000000000000000000000000000000000000000000000000000000000⟩
      18 6 0 = .ok poolC17 ∧
    poolC17.BaseFund.Amount ≠ 0 ∧
    (Price maxDecBitLenV045 poolC17).value = .error .intOverflow ∧
    (∀ bound : Nat, bound ≤ 372 → (Price bound poolC17).value = .error .intOverflow) := by
  refine ⟨rfl, by decide, rfl, ?_⟩
  intro bound hb
  rw [Price_eq poolC17 (by decide)]
  have h1 : 2 ^ bound ≤ 2 ^ 372 := Nat.pow_le_pow_right (by norm_num) hb
  have h2 : 2 ^ 372
      ≤ (poolC17.QuoteFund.Amount * poolC17.BaseDecimal * precisionReuse).natAbs := by
    decide
  rw [if_pos (le_trans h1 h2)]

/-- C17, amended: on a pool built by `NewPool`, `Price` leaves the pool
unchanged; it stops with the integer-overflow error when
`quoteReserve.amount * baseScale * 10^18` needs more than `maxDecBitLen` bits,
the bound of the decimal type; otherwise it stops if and only if the base
reserve is 0, and then with the division-by-zero error. -/
theorem C17_price_stops (bf qf : Coin) (bd qd k : Int) (p : Pool)
    (hp : NewPool bf qf bd qd k = .ok p) :
    (Price maxDecBitLen p).pool = p ∧
    (2 ^ maxDecBitLen ≤ (qf.Amount * 10 ^ bd.toNat * 10 ^ 18).natAbs →
      (Price maxDecBitLen p).value = .error .intOverflow) ∧
    ((qf.Amount * 10 ^ bd.toNat * 10 ^ 18).natAbs < 2 ^ maxDecBitLen →
      ((∃ e, (Price maxDecBitLen p).value = .error e) ↔ bf.Amount = 0) ∧
      (bf.Amount = 0 → (Price maxDecBitLen p).value = .error .divisionByZero)) := by
  obtain ⟨hbd, hqd, hbf, hqf, -⟩ := NewPool_ok_fields hp
  have hqd0 : p.QuoteDecimal ≠ 0 := by
    rw [hqd]; positivity
  have hM : p.QuoteFund.Amount * p.BaseDecimal * precisionReuse
      = qf.Amount * 10 ^ bd.toNat * 10 ^ 18 := by
    rw [hqf, hbd, precisionReuse_eq]; norm_num
  have hpe := @Price_eq maxDecBitLen p hqd0
  rw [hM, hbf] at hpe
  refine ⟨Price_pool p, ?_, ?_⟩
  · intro hov
    rw [hpe, if_pos hov]
  · intro hfit
    rw [hpe, if_neg (by omega)]
    constructor
    · constructor
      · rintro ⟨e, he⟩
        by_contra hB
        rw [if_neg hB] at he
        simp at he
      · intro hB
        rw [if_pos hB]
        exact ⟨_, rfl⟩
    · intro hB
      rw [if_pos hB]

/-- C17, witness: the pool of `main` with an empty base fund. -/
theorem C17_price_stops_witness :
    NewPool ⟨"inj", 0⟩ ⟨"usdt", 800000000⟩ 18 6 80000000000000000000000000000
      = .ok { poolMain with BaseFund := ⟨"inj", 0⟩ } ∧
    ((800000000 : Int) * 10 ^ (18 : Int).toNat * 10 ^ 18).natAbs < 2 ^ maxDecBitLenV045 ∧
    (⟨"inj", 0⟩ : Coin).Amount = 0 ∧
    (Price maxDecBitLenV045 { poolMain with BaseFund := ⟨"inj", 0⟩ }).pool
      = { poolMain with BaseFund := ⟨"inj", 0⟩ } ∧
    (Price maxDecBitLenV045 { poolMain with BaseFund := ⟨"inj", 0⟩ }).value
      = .error .divisionByZero :=
  ⟨rfl, by decide, rfl,
    (@C17_price_stops maxDecBitLenV045 ⟨"inj", 0⟩ ⟨"usdt", 800000000⟩ 18 6
      80000000000000000000000000000 { poolMain with BaseFund := ⟨"inj", 0⟩ } rfl).1,
    ((@C17_price_stops maxDecBitLenV045 ⟨"inj", 0⟩ ⟨"usdt", 800000000⟩ 18 6
      80000000000000000000000000000 { poolMain with BaseFund := ⟨"inj", 0⟩ } rfl).2.2
      (by decide)).2 rfl⟩

/-! ## C16: the value of `Price` -/

/-- C16, counterexample: the pool that `NewPool` builds with 18 and 6 decimals
from 1 base unit and `10^76` quote units has a positive base reserve and a
non-negative quote reserve, yet `Price` returns no decimal: it stops on the
overflow of `10^76 * 10^18 * 10^18`, which needs 373 bits, above the bound of
315 bits of cosmos-sdk v0.45 and above every bound of at most 372 bits. -/
theorem C16_price_returns_nothing :
    NewPool ⟨"inj", 1⟩
      ⟨"usdt", 10000000000000000000000000000000000000000000000000000000000000000000000000000⟩
      18 6 0 = .ok poolC16 ∧
    0 < poolC16.BaseFund.Amount ∧ 0 ≤ poolC16.QuoteFund.Amount ∧
    (Price maxDecBitLenV045 poolC16).value = .error .intOverflow ∧
    (∀ bound : Nat, bound ≤ 372 →
      (Price bound poolC16).value = .error .intOverflow ∧
      ¬ ∃ d, (Price bound poolC16).value = .ok d) := by
  refine ⟨rfl, by decide, by decide, rfl, ?_⟩
  intro bound hb
  have h1 : 2 ^ bound ≤ 2 ^ 372 := Nat.pow_le_pow_right (by norm_num) hb
  have h2 : 2 ^ 372
      ≤ (poolC16.QuoteFund.Amount * poolC16.BaseDecimal * precisionReuse).natAbs := by
    decide
  have h : (Price bound poolC16).value = .error .intOverflow := by
    rw [Price_eq poolC16 (by decide), if_pos (le_trans h1 h2)]
  refine ⟨h, ?_⟩
  rintro ⟨d, hd⟩
  rw [h] at hd
  simp at hd

/-- C16, amended: on a pool built by `NewPool` with decimal counts `bd`, `qd`,
a positive base reserve `B` and a non-negative quote reserve `Q` such that
`Q * 10^bd * 10^18` fits the `maxDecBitLen` bits of the decimal type, `Price`
returns a decimal `d` whose value `d.i / 10^18` differs from
`(Q / 10^qd) / (B / 10^bd)` by less than `10^-18`, and equals it when that
exact value has at most 18 decimals. -/
theorem C16_price_within_one_unit (bf qf : Coin) (bd qd : Nat) (k : Int) (p : Pool)
    (hp : NewPool bf qf bd qd k = .ok p)
    (hB : 0 < bf.Amount) (hQ : 0 ≤ qf.Amount)
    (hfit : qf.Amount * 10 ^ bd * 10 ^ 18 < 2 ^ maxDecBitLen) :
    ∃ d : Dec, (Price maxDecBitLen p).value = .ok d ∧
      |d.i * (10 ^ qd * bf.Amount) - qf.Amount * 10 ^ bd * 10 ^ 18| < 10 ^ qd * bf.Amount ∧
      |(d.i : ℚ) / 10 ^ 18 - ((qf.Amount : ℚ) / 10 ^ qd) / ((bf.Amount : ℚ) / 10 ^ bd)|
        < 1 / 10 ^ 18 ∧
      (10 ^ qd * bf.Amount ∣ qf.Amount * 10 ^ bd * 10 ^ 18 →
        (d.i : ℚ) / 10 ^ 18 = ((qf.Amount : ℚ) / 10 ^ qd) / ((bf.Amount : ℚ) / 10 ^ bd)) := by
  have hP : (0 : Int) < precisionReuse := by decide
  obtain ⟨hbd, hqd, hbf, hqf, -⟩ := NewPool_ok_fields hp
  simp only [Int.toNat_ofNat] at hbd hqd
  have hqdpos : (0 : Int) < 10 ^ qd := by positivity
  have hbdpos : (0 : Int) < 10 ^ bd := by positivity
  have hqd0 : p.QuoteDecimal ≠ 0 := by rw [hqd]; exact ne_of_gt hqdpos
  have hM : p.QuoteFund.Amount * p.BaseDecimal * precisionReuse
      = qf.Amount * 10 ^ bd * 10 ^ 18 := by
    rw [hqf, hbd, precisionReuse_eq]; norm_num
  have hM0 : 0 ≤ qf.Amount * 10 ^ bd * 10 ^ 18 :=
    mul_nonneg (mul_nonneg hQ (le_of_lt hbdpos)) (by norm_num)
  have hpe := @Price_eq maxDecBitLen p hqd0
  rw [hM] at hpe
  have hnat : (qf.Amount * 10 ^ bd * 10 ^ 18).natAbs < 2 ^ maxDecBitLen := by
    zify
    rw [abs_of_nonneg hM0]
    exact_mod_cast hfit
  rw [if_neg (by omega), hbf, if_neg (ne_of_gt hB), hqd] at hpe
  set M := qf.Amount * 10 ^ bd * 10 ^ 18 with hMdef
  set s2 := chopPrecisionAndRound
    ((M * precisionReuse * precisionReuse).tdiv (10 ^ qd * precisionReuse)) with hs2
  set s3 := chopPrecisionAndRound
    ((s2 * precisionReuse * precisionReuse).tdiv (bf.Amount * precisionReuse)) with hs3
  obtain ⟨h20, h2a, h2b⟩ := quoRound_bounds M (10 ^ qd * precisionReuse) hM0
    (mul_pos hqdpos hP)
  rw [← hs2] at h20 h2a h2b
  obtain ⟨-, h3a, h3b⟩ := quoRound_bounds s2 (bf.Amount * precisionReuse) h20
    (mul_pos hB hP)
  rw [← hs3] at h3a h3b
  have h2a' : 2 * (s2 * 10 ^ qd - M) ≤ 10 ^ qd := by
    have : (2 * (s2 * 10 ^ qd - M)) * precisionReuse ≤ 10 ^ qd * precisionReuse := by
      linarith
    exact le_of_mul_le_mul_right this hP
  have h2b' : 2 * (M - s2 * 10 ^ qd) * 1000000000000000000
      < 10 ^ qd * 1000000000000000002 := by
    have : (2 * (M - s2 * 10 ^ qd) * 1000000000000000000) * precisionReuse
        < (10 ^ qd * 1000000000000000002) * precisionReuse := by
      rw [precisionReuse_eq] at h2b ⊢
      linarith
    exact lt_of_mul_lt_mul_right this (le_of_lt hP)
  have h3a' : 2 * (s3 * bf.Amount - s2) ≤ bf.Amount := by
    have : (2 * (s3 * bf.Amount - s2)) * precisionReuse ≤ bf.Amount * precisionReuse := by
      linarith
    exact le_of_mul_le_mul_right this hP
  have h3b' : 2 * (s2 - s3 * bf.Amount) * 1000000000000000000
      < bf.Amount * 1000000000000000002 := by
    have : (2 * (s2 - s3 * bf.Amount) * 1000000000000000000) * precisionReuse
        < (bf.Amount * 1000000000000000002) * precisionReuse := by
      rw [precisionReuse_eq] at h3b ⊢
      linarith
    exact lt_of_mul_lt_mul_right this (le_of_lt hP)
  have herr : |s3 * (10 ^ qd * bf.Amount) - M| < 10 ^ qd * bf.Amount :=
    two_step_error M s2 s3 (10 ^ qd) bf.Amount hqdpos hB h2a' h2b' h3a' h3b'
  have hBq : (0 : ℚ) < (bf.Amount : ℚ) := by exact_mod_cast hB
  have hval : (s3 : ℚ) / 10 ^ 18 - ((qf.Amount : ℚ) / 10 ^ qd) / ((bf.Amount : ℚ) / 10 ^ bd)
      = ((s3 * (10 ^ qd * bf.Amount) - M : Int) : ℚ)
        / (10 ^ 18 * (10 ^ qd * (bf.Amount : ℚ))) := by
    rw [hMdef]
    push_cast
    field_simp
    ring
  refine ⟨⟨s3⟩, hpe, herr, ?_, ?_⟩
  · show |(s3 : ℚ) / 10 ^ 18 - _| < _
    rw [hval, abs_div,
      abs_of_pos (show (0 : ℚ) < 10 ^ 18 * (10 ^ qd * (bf.Amount : ℚ)) by positivity),
      div_lt_div_iff₀ (by positivity) (by positivity), one_mul]
    have h1 : |((s3 * (10 ^ qd * bf.Amount) - M : Int) : ℚ)|
        < ((10 ^ qd * bf.Amount : Int) : ℚ) := by
      exact_mod_cast herr
    have h2 := mul_lt_mul_of_pos_right h1 (show (0 : ℚ) < 10 ^ 18 by positivity)
    push_cast at h2 ⊢
    linarith
  · intro hdvd
    obtain ⟨j, hj⟩ := hdvd
    have hs2e : s2 = j * bf.Amount := by
      apply quoRound_exact M (10 ^ qd * precisionReuse) (j * bf.Amount) hM0 (mul_pos hqdpos hP)
      rw [hj]; ring
    have hs3e : s3 = j := by
      apply quoRound_exact s2 (bf.Amount * precisionReuse) j h20 (mul_pos hB hP)
      rw [hs2e]; ring
    show (s3 : ℚ) / 10 ^ 18 = _
    have : (s3 : ℚ) / 10 ^ 18
        - ((qf.Amount : ℚ) / 10 ^ qd) / ((bf.Amount : ℚ) / 10 ^ bd) = 0 := by
      rw [hval, hs3e, hj]
      have : j * (10 ^ qd * bf.Amount) - 10 ^ qd * bf.Amount * j = 0 := by ring
      rw [this]
      simp
    linarith

/-- C16, witness: the pool of `main`, whose price is 8. -/
theorem C16_price_within_one_unit_witness :
    NewPool ⟨"inj", 100000000000000000000⟩ ⟨"usdt", 800000000⟩ ((18 : Nat) : Int)
      ((6 : Nat) : Int) 80000000000000000000000000000 = .ok poolMain ∧
    (0 : Int) < (⟨"inj", 100000000000000000000⟩ : Coin).Amount ∧
    (0 : Int) ≤ (⟨"usdt", 800000000⟩ : Coin).Amount ∧
    (⟨"usdt", 800000000⟩ : Coin).Amount * 10 ^ 18 * 10 ^ 18 < 2 ^ maxDecBitLenV045 ∧
    ∃ d : Dec, (Price maxDecBitLenV045 poolMain).value = .ok d ∧
      |d.i * (10 ^ 6 * (⟨"inj", 100000000000000000000⟩ : Coin).Amount)
          - (⟨"usdt", 800000000⟩ : Coin).Amount * 10 ^ 18 * 10 ^ 18|
        < 10 ^ 6 * (⟨"inj", 100000000000000000000⟩ : Coin).Amount ∧
      |(d.i : ℚ) / 10 ^ 18 - (((⟨"usdt", 800000000⟩ : Coin).Amount : ℚ) / 10 ^ 6)
          / (((⟨"inj", 100000000000000000000⟩ : Coin).Amount : ℚ) / 10 ^ 18)|
        < 1 / 10 ^ 18 ∧
      (10 ^ 6 * (⟨"inj", 100000000000000000000⟩ : Coin).Amount
          ∣ (⟨"usdt", 800000000⟩ : Coin).Amount * 10 ^ 18 * 10 ^ 18 →
        (d.i : ℚ) / 10 ^ 18 = (((⟨"usdt", 800000000⟩ : Coin).Amount : ℚ) / 10 ^ 6)
          / (((⟨"inj", 100000000000000000000⟩ : Coin).Amount : ℚ) / 10 ^ 18)) :=
  ⟨rfl, by decide, by decide, by norm_num [maxDecBitLenV045],
    C16_price_within_one_unit ⟨"inj", 100000000000000000000⟩ ⟨"usdt", 800000000⟩ 18 6
      80000000000000000000000000000 poolMain rfl (by decide) (by decide)
      (by norm_num [maxDecBitLenV045])⟩

end AMM
